import Mathlib

/-!
Verification of pgc4d (a PostgreSQL client library) against its
natural-language specification.

Each section shallowly embeds one part of the source (src/src/utils.ts,
src/src/types.ts, src/src/data_type_converters.ts, src/src/data_type_registry.ts,
src/src/prepared_statement.ts) as executable Lean definitions, and proves or
refutes the specified properties about them.  JavaScript machine integers are
modelled as Nat/Int with explicit `% 2^w` where overflow matters; fallible
code returns `Except String`; dynamically typed values are modelled by small
inductive types carrying exactly the structure the embedded code inspects.
-/

/-! ## utils.ts: arrayDimensions -/

/-- A dynamically typed JavaScript value as `arrayDimensions` observes it:
either not an `Array` (any scalar) or an `Array` of further values
(`x instanceof Array`). -/
inductive JsAny where
  | scalar (n : Int)
  | arr (elems : List JsAny)

mutual
/-- Embedding of `arrayDimensions` (src/src/utils.ts:99-114) together with the
helper that mirrors `x.map(arrayDimensions)` (JavaScript `map` runs the
callback left to right and an exception aborts the whole call, hence the
short-circuiting list recursion).  The code compares every element result
against `elemResults[0]` with `elementsEqual` and returns
`[x.length].concat(elemResults[0])`. -/
def arrayDimensions : JsAny → Except String (List Nat)
  | .scalar _ => .ok []
  | .arr [] => .ok [0]
  | .arr (x :: xs) =>
    match arrayDimensionsList (x :: xs) with
    | .error e => .error e
    | .ok [] => .ok []
    | .ok (r :: rs) =>
      if (r :: rs).all (fun s => s == r) then .ok ((xs.length + 1) :: r)
      else .error "Multidimensional arrays must have sub-arrays with matching dimensions."

def arrayDimensionsList : List JsAny → Except String (List (List Nat))
  | [] => .ok []
  | x :: xs =>
    match arrayDimensions x with
    | .error e => .error e
    | .ok r =>
      match arrayDimensionsList xs with
      | .error e => .error e
      | .ok rs => .ok (r :: rs)
end

/-- C2: array dimension inference.  `arrayDimensions` returns `[]` on a
non-sequence, `[0]` on an empty sequence; on a non-empty sequence whose
elements' dimensions all compute, it returns `[len(x)] ++ dims(x[0])` when all
element dimensions are equal and raises the matching-dimensions error
otherwise; and the spec's concrete examples evaluate as stated. -/
theorem arrayDimensions_spec (x : JsAny) (xs : List JsAny) (r : List Nat)
    (rs : List (List Nat))
    (h : arrayDimensionsList (x :: xs) = Except.ok (r :: rs)) :
    (∀ n : Int, arrayDimensions (JsAny.scalar n) = Except.ok [])
    ∧ arrayDimensions (JsAny.arr []) = Except.ok [0]
    ∧ ((r :: rs).all (fun s => s == r) = true →
        arrayDimensions (JsAny.arr (x :: xs)) = Except.ok ((xs.length + 1) :: r))
    ∧ ((r :: rs).all (fun s => s == r) = false →
        arrayDimensions (JsAny.arr (x :: xs)) =
          Except.error "Multidimensional arrays must have sub-arrays with matching dimensions.")
    ∧ arrayDimensions (JsAny.arr [JsAny.arr [JsAny.arr []]]) = Except.ok [1, 1, 0]
    ∧ arrayDimensions (JsAny.arr [JsAny.scalar 1, JsAny.scalar 2, JsAny.scalar 3]) =
        Except.ok [3]
    ∧ arrayDimensions (JsAny.arr [JsAny.arr [], JsAny.arr [], JsAny.arr []]) =
        Except.ok [3, 0]
    ∧ arrayDimensions (JsAny.arr
        [JsAny.arr [JsAny.scalar 1, JsAny.scalar 2],
         JsAny.arr [JsAny.scalar 3, JsAny.scalar 4],
         JsAny.arr [JsAny.scalar 5, JsAny.scalar 6]]) = Except.ok [3, 2]
    ∧ arrayDimensions (JsAny.arr [JsAny.scalar 1, JsAny.arr []]) =
        Except.error "Multidimensional arrays must have sub-arrays with matching dimensions."
    ∧ arrayDimensions (JsAny.arr
        [JsAny.arr [JsAny.scalar 1], JsAny.arr [JsAny.scalar 1, JsAny.scalar 2]]) =
        Except.error "Multidimensional arrays must have sub-arrays with matching dimensions." := by
  refine ⟨fun n => rfl, rfl, ?_, ?_, rfl, rfl, rfl, rfl, rfl, rfl⟩
  · intro hall
    simp only [arrayDimensions, h, hall, if_true]
  · intro hall
    simp only [arrayDimensions, h, hall, if_false, Bool.false_eq_true]

/-- Witness for `arrayDimensions_spec` at the concrete input `[1, 2, 3]`. -/
theorem arrayDimensions_spec_witness :
    arrayDimensions (JsAny.arr [JsAny.scalar 1, JsAny.scalar 2, JsAny.scalar 3]) =
      Except.ok [3] :=
  ((arrayDimensions_spec (JsAny.scalar 1) [JsAny.scalar 2, JsAny.scalar 3] [] [[], []]
      rfl).2.2.1) rfl

/-! ## utils.ts: Deferred -/

/-- State of the underlying native promise created by the `Deferred`
constructor's `super(...)` call: this is what a caller that `await`s the
`Deferred` observes.  Native promise settlement is first-wins. -/
inductive PromiseState (T : Type) where
  | pending
  | fulfilledWith (v : Option T)
  | rejectedWith (e : String)

/-- The executor's `resolve` captured as `methods.resolve`: settling an
already-settled native promise is a no-op. -/
def promiseResolve {T : Type} : PromiseState T → Option T → PromiseState T
  | .pending, v => .fulfilledWith v
  | s, _ => s

/-- The executor's `reject` captured as `methods.reject`: same first-wins
behaviour. -/
def promiseReject {T : Type} : PromiseState T → String → PromiseState T
  | .pending, e => .rejectedWith e
  | s, _ => s

/-- Observable fields of a `Deferred<T>` (src/src/utils.ts:7-45): the `state`
string, the `value` and `rejectionReason` properties, and the settlement of
the underlying native promise. -/
structure Deferred (T : Type) where
  state : String
  value : Option T
  rejectionReason : Option String
  settlement : PromiseState T

/-- A freshly constructed `Deferred` (no executor argument). -/
def Deferred.init (T : Type) : Deferred T :=
  { state := "pending", value := none, rejectionReason := none,
    settlement := PromiseState.pending }

/-- Embedding of `Deferred.resolve` for a plain (non-thenable) value: it
unconditionally sets `this.state = 'fulfilled'` and `this.value = value`, then
calls the captured native `methods.resolve(value)`. -/
def Deferred.resolve {T : Type} (d : Deferred T) (v : Option T) : Deferred T :=
  { state := "fulfilled", value := v, rejectionReason := d.rejectionReason,
    settlement := promiseResolve d.settlement v }

/-- Embedding of `Deferred.reject`: it unconditionally sets
`this.state = 'rejected'` and `this.rejectionReason = reason`, then calls the
captured native `methods.reject(reason)`. -/
def Deferred.reject {T : Type} (d : Deferred T) (e : String) : Deferred T :=
  { state := "rejected", value := d.value, rejectionReason := some e,
    settlement := promiseReject d.settlement e }

/-- The `settled` getter: `this.state !== 'pending'`. -/
def Deferred.settled {T : Type} (d : Deferred T) : Bool :=
  d.state != "pending"

/-- One external call on a `Deferred`: `resolve(v)` or `reject(e)`. -/
inductive DeferredCall (T : Type) where
  | resolveCall (v : Option T)
  | rejectCall (e : String)

/-- Apply one call. -/
def Deferred.applyCall {T : Type} (d : Deferred T) : DeferredCall T → Deferred T
  | .resolveCall v => d.resolve v
  | .rejectCall e => d.reject e

/-- Apply a history of calls in order. -/
def Deferred.applyAll {T : Type} (d : Deferred T) (calls : List (DeferredCall T)) :
    Deferred T :=
  calls.foldl Deferred.applyCall d

theorem Deferred.applyCall_settlement_ne_pending {T : Type} (d : Deferred T)
    (c : DeferredCall T) : (d.applyCall c).settlement ≠ PromiseState.pending := by
  cases c with
  | resolveCall v =>
    show (promiseResolve d.settlement v) ≠ PromiseState.pending
    cases d.settlement <;> simp [promiseResolve]
  | rejectCall e =>
    show (promiseReject d.settlement e) ≠ PromiseState.pending
    cases d.settlement <;> simp [promiseReject]

theorem Deferred.applyCall_settlement_of_ne_pending {T : Type} (d : Deferred T)
    (c : DeferredCall T) (h : d.settlement ≠ PromiseState.pending) :
    (d.applyCall c).settlement = d.settlement := by
  cases c with
  | resolveCall v =>
    show (promiseResolve d.settlement v) = d.settlement
    cases hd : d.settlement with
    | pending => exact absurd hd h
    | fulfilledWith v => rfl
    | rejectedWith e => rfl
  | rejectCall e =>
    show (promiseReject d.settlement e) = d.settlement
    cases hd : d.settlement with
    | pending => exact absurd hd h
    | fulfilledWith v => rfl
    | rejectedWith e => rfl

theorem Deferred.applyAll_settlement_ne_pending {T : Type}
    (calls : List (DeferredCall T)) (d : Deferred T)
    (h : d.settlement ≠ PromiseState.pending) :
    (d.applyAll calls).settlement ≠ PromiseState.pending := by
  induction calls generalizing d with
  | nil => exact h
  | cons c cs ih =>
    exact ih (d.applyCall c) (Deferred.applyCall_settlement_ne_pending d c)

theorem Deferred.applyCall_state_ne_pending {T : Type} (d : Deferred T)
    (c : DeferredCall T) : (d.applyCall c).state ≠ "pending" := by
  cases c <;> simp [Deferred.applyCall, Deferred.resolve, Deferred.reject]

theorem Deferred.applyAll_state_ne_pending {T : Type}
    (calls : List (DeferredCall T)) (d : Deferred T) (h : d.state ≠ "pending") :
    (d.applyAll calls).state ≠ "pending" := by
  induction calls generalizing d with
  | nil => exact h
  | cons c cs ih =>
    exact ih (d.applyCall c) (Deferred.applyCall_state_ne_pending d c)

/-- C3 counterexample: a `Deferred` settled by `reject("boom")` is `settled`,
yet a subsequent `resolve(42)` changes its observable `state` field from
`"rejected"` to `"fulfilled"` (and its `value` field from `undefined` to
`42`), so the subsequent resolve is not a no-op on every observable field. -/
theorem Deferred.resolve_after_reject_changes_state :
    ((Deferred.init Int).reject "boom").settled = true
    ∧ ((Deferred.init Int).reject "boom").state = "rejected"
    ∧ (((Deferred.init Int).reject "boom").resolve (some 42)).state = "fulfilled"
    ∧ ((Deferred.init Int).reject "boom").value = none
    ∧ (((Deferred.init Int).reject "boom").resolve (some 42)).value = some 42 :=
  ⟨rfl, rfl, rfl, rfl, rfl⟩

/-- C3 amended: for a `Deferred` that has already settled (at least one
`resolve`/`reject` call happened), a subsequent `resolve` is a no-op on the
settlement observed by awaiters and on `rejectionReason`, but it still
overwrites the `state` field to `"fulfilled"` and the `value` field to the
new value. -/
theorem Deferred.resolve_after_settled {T : Type} (c : DeferredCall T)
    (calls : List (DeferredCall T)) (v : Option T) :
    ((Deferred.init T).applyAll (c :: calls)).settled = true
    ∧ (((Deferred.init T).applyAll (c :: calls)).resolve v).settlement =
        ((Deferred.init T).applyAll (c :: calls)).settlement
    ∧ (((Deferred.init T).applyAll (c :: calls)).resolve v).rejectionReason =
        ((Deferred.init T).applyAll (c :: calls)).rejectionReason
    ∧ (((Deferred.init T).applyAll (c :: calls)).resolve v).state = "fulfilled"
    ∧ (((Deferred.init T).applyAll (c :: calls)).resolve v).value = v := by
  have hsettle : ((Deferred.init T).applyAll (c :: calls)).settlement ≠
      PromiseState.pending := by
    show (((Deferred.init T).applyCall c).applyAll calls).settlement ≠ _
    exact Deferred.applyAll_settlement_ne_pending calls _
      (Deferred.applyCall_settlement_ne_pending _ c)
  have hstate : ((Deferred.init T).applyAll (c :: calls)).state ≠ "pending" := by
    show (((Deferred.init T).applyCall c).applyAll calls).state ≠ _
    exact Deferred.applyAll_state_ne_pending calls _
      (Deferred.applyCall_state_ne_pending _ c)
  refine ⟨?_, ?_, rfl, rfl, rfl⟩
  · simpa [Deferred.settled] using hstate
  · show promiseResolve _ v = _
    cases hs : ((Deferred.init T).applyAll (c :: calls)).settlement with
    | pending => exact absurd hs hsettle
    | fulfilledWith w => rfl
    | rejectedWith e => rfl

/-! ## types.ts (connection): Lock turn discipline -/

/-- One interaction through the `Lock` that can change its private `clean`
flag (src/src/types.ts:170-212): `Lock.write` sets `clean = false` before
writing a message batch; a successful `Lock.read` sets
`clean = (msg.type === 'ReadyForQuery')`. -/
inductive LockOp where
  | writeOp
  | consumeOp (isReadyForQuery : Bool)

/-- The `clean` flag after a sequence of lock operations, starting from `c`
(the field is initialised `private clean = true`). -/
def cleanAfter : Bool → List LockOp → Bool
  | c, [] => c
  | _, .writeOp :: rest => cleanAfter false rest
  | _, .consumeOp b :: rest => cleanAfter b rest

/-- Embedding of `Lock.release` (src/src/types.ts:208-211): asserts `clean`
with the message below, then writes the token back onto the `_locks` pipe
(returning the new queue length). -/
def Lock.release (clean : Bool) (queued : Nat) : Except String Nat :=
  if clean then .ok (queued + 1)
  else .error "Releasing lock while connection is not in a clean state."

/-- Global accounting of the single lock token: how many tokens sit in the
`_locks` pipe, how many are held by an in-flight operation, and the token's
`clean` flag. -/
structure LockSys where
  queued : Nat
  held : Nat
  clean : Bool

/-- The state right after `_start` constructs the one `Lock` (it is held by
the startup sequence; nothing is queued yet). -/
def LockSys.init : LockSys :=
  { queued := 0, held := 1, clean := true }

/-- The transitions the connection code performs on the token system:
`_locks.read()` moves a token from the pipe to a holder, `Lock.write` and
`Lock.read` flip the held token's `clean` flag, and a release that passes the
assertion (`Lock.release` returns ok) moves the held token back to the pipe. -/
inductive LockStep : LockSys → LockSys → Prop
  | acquire (s : LockSys) (h : 0 < s.queued) :
      LockStep s { queued := s.queued - 1, held := s.held + 1, clean := s.clean }
  | write (s : LockSys) (h : 0 < s.held) :
      LockStep s { s with clean := false }
  | consume (s : LockSys) (b : Bool) (h : 0 < s.held) :
      LockStep s { s with clean := b }
  | release (s : LockSys) (q : Nat) (h : 0 < s.held)
      (hr : Lock.release s.clean s.queued = Except.ok q) :
      LockStep s { queued := q, held := s.held - 1, clean := s.clean }

/-- Reachability from the post-construction state. -/
def LockReachable (s : LockSys) : Prop :=
  Relation.ReflTransGen LockStep LockSys.init s

theorem LockStep.preserves_token_count {s t : LockSys} (h : LockStep s t)
    (hinv : s.queued + s.held = 1) : t.queued + t.held = 1 := by
  cases h with
  | acquire h => dsimp only; omega
  | write h => simpa using hinv
  | consume b h => simpa using hinv
  | release q h hr =>
    have hq : q = s.queued + 1 := by
      cases hclean : s.clean with
      | false => rw [hclean] at hr; simp [Lock.release] at hr
      | true =>
        rw [hclean] at hr
        simp only [Lock.release, if_true] at hr
        exact (Except.ok.inj hr).symm
    dsimp only
    omega

theorem cleanAfter_eq_getLast (ops : List LockOp) :
    ∀ c : Bool, ops ≠ [] →
      (cleanAfter c ops = true ↔ ops.getLast? = some (LockOp.consumeOp true)) := by
  induction ops with
  | nil => intro c h; exact absurd rfl h
  | cons op rest ih =>
    intro c _
    cases rest with
    | nil =>
      cases op with
      | writeOp => simp [cleanAfter]
      | consumeOp b => simp [cleanAfter]
    | cons op2 rest2 =>
      have htail : (op :: op2 :: rest2).getLast? = (op2 :: rest2).getLast? := rfl
      rw [htail]
      cases op with
      | writeOp => exact ih false (by simp)
      | consumeOp b => exact ih b (by simp)

/-- C1: the lock token may be returned to the queue only in the clean state.
For any nonempty sequence of writes/reads through the lock, `Lock.release`
succeeds exactly when the most recently consumed server message was
`ReadyForQuery` (in particular no write was issued since); in any other state
it fails with the releasing-while-not-clean assertion message; and in every
reachable state of the token system exactly one token exists, so at most one
token sits in the queue at any instant. -/
theorem Lock.release_spec (ops : List LockOp) (queued : Nat) (s : LockSys)
    (hops : ops ≠ []) (hs : LockReachable s) :
    ((∃ q, Lock.release (cleanAfter true ops) queued = Except.ok q) ↔
        ops.getLast? = some (LockOp.consumeOp true))
    ∧ (cleanAfter true ops = false →
        Lock.release (cleanAfter true ops) queued =
          Except.error "Releasing lock while connection is not in a clean state.")
    ∧ s.queued + s.held = 1
    ∧ s.queued ≤ 1 := by
  have hinv : s.queued + s.held = 1 := by
    induction hs with
    | refl => rfl
    | tail hst hstep ih => exact hstep.preserves_token_count ih
  refine ⟨?_, ?_, hinv, by omega⟩
  · constructor
    · intro ⟨q, hq⟩
      by_cases hc : cleanAfter true ops = true
      · exact (cleanAfter_eq_getLast ops true hops).mp hc
      · rw [Lock.release, if_neg (by simpa using hc)] at hq
        cases hq
    · intro hlast
      have hc : cleanAfter true ops = true :=
        (cleanAfter_eq_getLast ops true hops).mpr hlast
      exact ⟨queued + 1, by rw [Lock.release, if_pos (by simpa using hc)]⟩
  · intro hc
    rw [Lock.release, if_neg (by simp [hc])]

/-- Witness for `Lock.release_spec`: after writing the command batch and
consuming a `ReadyForQuery`, release succeeds. -/
theorem Lock.release_spec_witness :
    ∃ q, Lock.release (cleanAfter true [LockOp.writeOp, LockOp.consumeOp true]) 0 =
      Except.ok q :=
  (Lock.release_spec [LockOp.writeOp, LockOp.consumeOp true] 0 LockSys.init
      (List.cons_ne_nil _ _) Relation.ReflTransGen.refl).1.mpr rfl

/-! ## types.ts (connection): notification dispatch in the read loop -/

/-- A `NotificationResponse` server message (src/src/message_types.ts). -/
structure NotificationResponse where
  sender : Nat
  channel : String
  payload : String

/-- The `Notification` record handed to listeners (src/src/types.ts:4-10). -/
structure Notification where
  channel : String
  payload : String
  sender : Nat
deriving DecidableEq

/-- One entry of `this._channels`: the listener set (a JS `Set`, iterated in
insertion order, so modelled as a duplicate-free list of listener identities)
and whether the `subscribed` latch has settled. -/
structure ChannelEntry where
  listeners : List Nat
  subscribedSettled : Bool

/-- `this._channels.get(channel)` over an association-list model of the map
(later insertions shadow earlier ones). -/
def channelsGet (channels : List (String × ChannelEntry)) (name : String) :
    Option ChannelEntry :=
  (channels.reverse.find? (fun p => p.1 == name)).map Prod.snd

/-- Embedding of the `NotificationResponse` arm of `_runReadLoop`
(src/src/types.ts:264-277): the ordered list of listener invocations
(listener, notification) the dispatcher performs, and awaits, for one
message.  No entry, or an entry whose `subscribed` latch is not settled,
produces no invocation. -/
def dispatchNotification (channels : List (String × ChannelEntry))
    (msg : NotificationResponse) : List (Nat × Notification) :=
  match channelsGet channels msg.channel with
  | none => []
  | some channel =>
    if !channel.subscribedSettled then []
    else channel.listeners.map (fun listener =>
      (listener, { channel := msg.channel, payload := msg.payload,
                   sender := msg.sender }))

/-- The read loop restricted to notification messages: since the dispatcher
awaits `Promise.all` of one message's listener invocations before reading the
next message, the invocation trace is the in-order concatenation of the
per-message dispatches. -/
def dispatchLoop (channels : List (String × ChannelEntry))
    (msgs : List NotificationResponse) : List (Nat × Notification) :=
  msgs.foldl (fun acc msg => acc ++ dispatchNotification channels msg) []

theorem dispatchLoop_go (channels : List (String × ChannelEntry))
    (msgs : List NotificationResponse) (acc : List (Nat × Notification)) :
    msgs.foldl (fun acc msg => acc ++ dispatchNotification channels msg) acc =
      acc ++ dispatchLoop channels msgs := by
  induction msgs generalizing acc with
  | nil => simp [dispatchLoop]
  | cons m ms ih =>
    show List.foldl _ (acc ++ dispatchNotification channels m) ms = _
    rw [ih]
    have h2 : dispatchLoop channels (m :: ms) =
        dispatchNotification channels m ++ dispatchLoop channels ms := by
      show List.foldl _ ([] ++ dispatchNotification channels m) ms = _
      rw [ih]
      simp
    rw [h2, List.append_assoc]

/-- C4: notification dispatch gap-tolerance.  For a `NotificationResponse`:
if the channel has no registered entry, or its entry's subscribed-latch is
still pending, no listener is invoked; otherwise every registered listener is
invoked exactly once with `{channel, payload, sender}` (and nothing else is
invoked); and the loop completes all invocations of earlier messages before
any invocation of a later message (the trace over `msgs1 ++ msgs2` is the
trace over `msgs1` followed by the trace over `msgs2`). -/
theorem dispatchNotification_spec (channels : List (String × ChannelEntry))
    (msg : NotificationResponse) (entry : ChannelEntry) :
    (channelsGet channels msg.channel = none →
        dispatchNotification channels msg = [])
    ∧ (channelsGet channels msg.channel = some entry →
        entry.subscribedSettled = false →
        dispatchNotification channels msg = [])
    ∧ (channelsGet channels msg.channel = some entry →
        entry.subscribedSettled = true →
        entry.listeners.Nodup →
        (dispatchNotification channels msg).Nodup
        ∧ (∀ l ∈ entry.listeners,
            (l, { channel := msg.channel, payload := msg.payload,
                  sender := msg.sender }) ∈ dispatchNotification channels msg)
        ∧ ∀ p ∈ dispatchNotification channels msg,
            p.1 ∈ entry.listeners
            ∧ p.2 = { channel := msg.channel, payload := msg.payload,
                      sender := msg.sender })
    ∧ ∀ msgs1 msgs2 : List NotificationResponse,
        dispatchLoop channels (msgs1 ++ msgs2) =
          dispatchLoop channels msgs1 ++ dispatchLoop channels msgs2 := by
  refine ⟨?_, ?_, ?_, ?_⟩
  · intro h
    simp [dispatchNotification, h]
  · intro h hsub
    simp [dispatchNotification, h, hsub]
  · intro h hsub hnodup
    have hd : dispatchNotification channels msg =
        entry.listeners.map (fun listener =>
          (listener, { channel := msg.channel, payload := msg.payload,
                       sender := msg.sender })) := by
      simp [dispatchNotification, h, hsub]
    have hinj : Function.Injective (fun listener =>
        ((listener, { channel := msg.channel, payload := msg.payload,
                      sender := msg.sender }) : Nat × Notification)) := by
      intro a b hab
      exact (Prod.mk.injEq _ _ _ _).mp hab |>.1
    refine ⟨?_, ?_, ?_⟩
    · rw [hd]
      exact hnodup.map hinj
    · intro l hl
      rw [hd]
      exact List.mem_map_of_mem _ hl
    · intro p hp
      rw [hd] at hp
      obtain ⟨l, hl, rfl⟩ := List.mem_map.mp hp
      exact ⟨hl, rfl⟩
  · intro msgs1 msgs2
    show List.foldl _ [] (msgs1 ++ msgs2) = _
    rw [List.foldl_append, dispatchLoop_go]
    rfl

/-! ## data_type_registry.ts: TypeRegistry -/

/-- One row of the in-memory type table (src/src/data_type_registry.ts:10-18),
a subset of `pg_type`. -/
structure TypeRow where
  oid : Nat
  typname : String
  typtype : String
  typelem : Nat
  typreceive : String
  typsend : String
  attrtypids : List Nat

/-- The runtime exports of src/src/data_type_converters.ts: exactly the names
the `type.typsend in converters` / `type.typreceive in converters` membership
tests can find. -/
def converterExports : List String :=
  ["textsend", "textrecv", "varcharsend", "varcharrecv", "bpcharsend",
   "bpcharrecv", "namesend", "namerecv", "enum_send", "enum_recv",
   "boolsend", "boolrecv", "int2send", "int2recv", "int4send", "int4recv",
   "float4send", "float4recv", "float8send", "float8recv", "int8send",
   "int8recv", "oidsend", "oidrecv", "byteasend", "bytearecv",
   "timestamp_send", "timestamp_recv", "timestamptz_send", "timestamptz_recv",
   "json_send", "json_recv", "jsonb_send", "jsonb_recv", "void_send",
   "void_recv", "array_send", "array_recv", "record_send", "record_recv"]

/-- The registry's state: the rows passed to `loadTable`, which indexes them
by oid in a JS `Map` (on duplicate oids the later row wins). -/
structure TypeRegistry where
  types : List TypeRow

/-- `this.types.get(typeOid)`. -/
def TypeRegistry.lookup (reg : TypeRegistry) (typeOid : Nat) : Option TypeRow :=
  reg.types.reverse.find? (fun row => row.oid == typeOid)

/-- The outcome of a successful registry dispatch: which converter function
was selected from the table, applied to which argument.  (The individual
converters are embedded separately; here we verify the lookup and dispatch
step of `TypeRegistry.recv`/`TypeRegistry.send`,
src/src/data_type_registry.ts:59-81.) -/
inductive Dispatch (V : Type) where
  | dispatched (converterName : String) (arg : V)

/-- Embedding of `TypeRegistry.recv`. -/
def TypeRegistry.recv (reg : TypeRegistry) (typeOid : Nat) (array : List Nat) :
    Except String (Dispatch (List Nat)) :=
  match reg.lookup typeOid with
  | none => .error s!"Unknown type: oid {typeOid}"
  | some type =>
    if converterExports.contains type.typreceive then
      .ok (.dispatched type.typreceive array)
    else
      .error s!"Unsupported type: {type.typname} (oid {typeOid}, typreceive {type.typreceive})"

/-- Embedding of `TypeRegistry.send`. -/
def TypeRegistry.send {V : Type} (reg : TypeRegistry) (typeOid : Nat) (value : V) :
    Except String (Dispatch V) :=
  match reg.lookup typeOid with
  | none => .error s!"Unknown type: oid {typeOid}"
  | some type =>
    if converterExports.contains type.typsend then
      .ok (.dispatched type.typsend value)
    else
      .error s!"Unsupported type: {type.typname} (oid {typeOid}, typsend {type.typsend})"

/-- A `pg_type` row whose codec functions are not in the converter table. -/
def pointTypeRow : TypeRow :=
  { oid := 600, typname := "point", typtype := "b", typelem := 0,
    typreceive := "point_recv", typsend := "point_send", attrtypids := [] }

/-- A registry that has loaded `pointTypeRow`. -/
def cexRegistry : TypeRegistry := { types := [pointTypeRow] }

/-- C5 counterexample: for oid 600 (`point`), present in the table but with
codec `point_recv` absent from the converter table, `recv` raises
"Unsupported type: point (oid 600, typreceive point_recv)" — the message
names `typreceive`, not `typsend` as the claim states for both directions. -/
theorem TypeRegistry.recv_unsupported_message_cex :
    cexRegistry.lookup 600 = some pointTypeRow
    ∧ converterExports.contains pointTypeRow.typreceive = false
    ∧ TypeRegistry.recv cexRegistry 600 [] =
        Except.error "Unsupported type: point (oid 600, typreceive point_recv)"
    ∧ TypeRegistry.recv cexRegistry 600 [] ≠
        Except.error "Unsupported type: point (oid 600, typsend point_recv)" := by
  refine ⟨rfl, rfl, rfl, ?_⟩
  intro h
  rw [show TypeRegistry.recv cexRegistry 600 [] =
      Except.error "Unsupported type: point (oid 600, typreceive point_recv)" from rfl] at h
  exact absurd (Except.error.inj h) (by decide)

/-- C5 amended: `send` and `recv` raise "Unknown type: oid N" exactly on an
oid absent from the loaded table; on a present row whose codec name is not in
the converter table, `send` raises "Unsupported type: name (oid N, typsend
fn)" and `recv` raises "Unsupported type: name (oid N, typreceive fn)" (the
recv message says `typreceive`, not `typsend`); otherwise each dispatches to
the converter named by `typsend`/`typreceive`. -/
theorem TypeRegistry.send_recv_dispatch_spec {V : Type} (reg : TypeRegistry)
    (typeOid : Nat) (v : V) (bytes : List Nat) (t : TypeRow) :
    (reg.lookup typeOid = none →
        reg.send typeOid v = Except.error s!"Unknown type: oid {typeOid}"
        ∧ reg.recv typeOid bytes = Except.error s!"Unknown type: oid {typeOid}")
    ∧ (reg.lookup typeOid = some t →
        (converterExports.contains t.typsend = false →
          reg.send typeOid v = Except.error
            s!"Unsupported type: {t.typname} (oid {typeOid}, typsend {t.typsend})")
        ∧ (converterExports.contains t.typsend = true →
          reg.send typeOid v = Except.ok (Dispatch.dispatched t.typsend v))
        ∧ (converterExports.contains t.typreceive = false →
          reg.recv typeOid bytes = Except.error
            s!"Unsupported type: {t.typname} (oid {typeOid}, typreceive {t.typreceive})")
        ∧ (converterExports.contains t.typreceive = true →
          reg.recv typeOid bytes = Except.ok (Dispatch.dispatched t.typreceive bytes))) := by
  constructor
  · intro h
    constructor
    · simp [TypeRegistry.send, h]
    · simp [TypeRegistry.recv, h]
  · intro h
    refine ⟨?_, ?_, ?_, ?_⟩ <;> intro hc
    · have hc2 : t.typsend ∉ converterExports := by simpa using hc
      simp [TypeRegistry.send, h, hc2]
    · have hc2 : t.typsend ∈ converterExports := by simpa using hc
      simp [TypeRegistry.send, h, hc2]
    · have hc2 : t.typreceive ∉ converterExports := by simpa using hc
      simp [TypeRegistry.recv, h, hc2]
    · have hc2 : t.typreceive ∈ converterExports := by simpa using hc
      simp [TypeRegistry.recv, h, hc2]

/-! ## prepared_statement.ts: CompletionInfo parsing from CommandComplete -/

/-- A JavaScript number as `parseInt` can produce it: an integer or `NaN`. -/
inductive JsNumber where
  | nan
  | int (n : Int)
deriving DecidableEq

/-- `CompletionInfo` (src/src/query_result.ts:5-17): the optional
`numAffectedRows` field. -/
structure CompletionInfo where
  numAffectedRows : Option JsNumber
deriving DecidableEq

/-- JavaScript string whitespace recognised by `parseInt`. -/
def jsWhitespace : List Char := [' ', '\t', '\n', '\r', '\x0B', '\x0C']

def jsStripWs : List Char → List Char
  | [] => []
  | c :: rest => if c ∈ jsWhitespace then jsStripWs rest else c :: rest

def isDigitChar (c : Char) : Bool :=
  48 ≤ c.toNat && c.toNat ≤ 57

/-- Maximal decimal digit prefix. -/
def takeDigits : List Char → List Char × List Char
  | [] => ([], [])
  | c :: rest =>
    if isDigitChar c then
      let p := takeDigits rest
      (c :: p.1, p.2)
    else ([], c :: rest)

def digitsToNat (ds : List Char) : Nat :=
  ds.foldl (fun acc c => 10 * acc + (c.toNat - 48)) 0

/-- Model of JavaScript `parseInt(s, 10)`: strip leading whitespace, read an
optional sign, then the maximal digit prefix; `NaN` when no digits follow. -/
def jsParseInt (s : String) : JsNumber :=
  match jsStripWs s.data with
  | '-' :: rest =>
    let ds := (takeDigits rest).1
    if ds.isEmpty then .nan else .int (-(digitsToNat ds : Int))
  | '+' :: rest =>
    let ds := (takeDigits rest).1
    if ds.isEmpty then .nan else .int (digitsToNat ds)
  | cs =>
    let ds := (takeDigits cs).1
    if ds.isEmpty then .nan else .int (digitsToNat ds)

/-- Model of JavaScript `tag.split(' ')` on the character list: split on each
single space; adjacent, leading and trailing separators produce empty
fields, and the empty string splits to `[""]`. -/
def splitSpaceChars : List Char → List (List Char)
  | [] => [[]]
  | c :: rest =>
    match splitSpaceChars rest with
    | [] => if c = ' ' then [[], []] else [[c]]
    | g :: gs => if c = ' ' then [] :: g :: gs else (c :: g) :: gs

/-- `tag.split(' ')`. -/
def jsSplitSpace (s : String) : List String :=
  (splitSpaceChars s.data).map String.mk

/-- `tagParts[i]` as the argument `parseInt` receives: for an out-of-range
index, JS passes `undefined`, which `parseInt` coerces to the string
"undefined" (and parses to `NaN`). -/
def tagPart (parts : List String) (i : Nat) : String :=
  (parts[i]?).getD "undefined"

/-- Embedding of the `CommandComplete` arm of
`_createRowsIteratorFromResponse` (src/src/prepared_statement.ts:64-80):
`tag.split(' ')`, then `INSERT` takes `parseInt(tagParts[2], 10)`,
`DELETE|UPDATE|SELECT|MOVE|FETCH|COPY` take `parseInt(tagParts[1], 10)`, and
any other tag leaves `numAffectedRows` undefined. -/
def parseCommandCompleteTag (tag : String) : CompletionInfo :=
  let tagParts := jsSplitSpace tag
  let first := tagPart tagParts 0
  if first == "INSERT" then
    { numAffectedRows := some (jsParseInt (tagPart tagParts 2)) }
  else if first == "DELETE" || first == "UPDATE" || first == "SELECT" ||
      first == "MOVE" || first == "FETCH" || first == "COPY" then
    { numAffectedRows := some (jsParseInt (tagPart tagParts 1)) }
  else
    { numAffectedRows := none }

/-- C6: CompletionInfo parsing.  For a `CommandComplete` tag, when the first
whitespace-separated word is `INSERT`, `numAffectedRows` is the integer parsed
at position 2; when it is one of `SELECT/UPDATE/DELETE/MOVE/FETCH/COPY`, the
integer parsed at position 1; any other first word leaves `numAffectedRows`
undefined; and the tag `"SELECT 1"` (produced by `SELECT 42`) yields
`numAffectedRows == 1`. -/
theorem parseCommandCompleteTag_spec (tag : String) :
    ((jsSplitSpace tag)[0]? = some "INSERT" →
      ∀ s : String, (jsSplitSpace tag)[2]? = some s →
      ∀ n : Int, jsParseInt s = JsNumber.int n →
        parseCommandCompleteTag tag = { numAffectedRows := some (JsNumber.int n) })
    ∧ (∀ kw : String,
        kw ∈ ["SELECT", "UPDATE", "DELETE", "MOVE", "FETCH", "COPY"] →
        (jsSplitSpace tag)[0]? = some kw →
        ∀ s : String, (jsSplitSpace tag)[1]? = some s →
        ∀ n : Int, jsParseInt s = JsNumber.int n →
        parseCommandCompleteTag tag = { numAffectedRows := some (JsNumber.int n) })
    ∧ (∀ kw : String, (jsSplitSpace tag)[0]? = some kw →
        kw ∉ ["INSERT", "SELECT", "UPDATE", "DELETE", "MOVE", "FETCH", "COPY"] →
        (parseCommandCompleteTag tag).numAffectedRows = none)
    ∧ parseCommandCompleteTag "SELECT 1" =
        { numAffectedRows := some (JsNumber.int 1) } := by
  refine ⟨?_, ?_, ?_, by decide⟩
  · intro h0 s h2 n hn
    simp only [parseCommandCompleteTag, tagPart, h0, h2, Option.getD_some, hn,
      beq_self_eq_true, if_true]
  · intro kw hkw h0 s h1 n hn
    have hne : (kw == "INSERT") = false := by
      fin_cases hkw <;> rfl
    have hor : (kw == "DELETE" || kw == "UPDATE" || kw == "SELECT" ||
        kw == "MOVE" || kw == "FETCH" || kw == "COPY") = true := by
      fin_cases hkw <;> rfl
    simp only [parseCommandCompleteTag, tagPart, h0, h1, Option.getD_some, hn,
      hne, hor, if_true, Bool.false_eq_true, if_false]
  · intro kw h0 hkw
    simp only [List.mem_cons, List.not_mem_nil, or_false, not_or] at hkw
    obtain ⟨h1, h2, h3, h4, h5, h6, h7⟩ := hkw
    simp [parseCommandCompleteTag, tagPart, h0, h1, h2, h3, h4, h5, h6, h7]

/-! ## data_type_converters.ts: int4/int8 and timestamp codecs -/

/-- Embedding of `int4send` / `oidsend` (a `DataView.setInt32` write): the
4-byte big-endian two's-complement encoding. -/
def int4send (value : Int) : List Nat :=
  let w := (value % (2 ^ 32 : Int)).toNat
  [w / 2 ^ 24 % 256, w / 2 ^ 16 % 256, w / 2 ^ 8 % 256, w % 256]

/-- `oidsend` is aliased to `int4send` in the source. -/
def oidsend : Int → List Nat := int4send

/-- The 8 big-endian bytes of a 64-bit word. -/
def bytesBE8 (w : Nat) : List Nat :=
  [w / 2 ^ 56 % 256, w / 2 ^ 48 % 256, w / 2 ^ 40 % 256, w / 2 ^ 32 % 256,
   w / 2 ^ 24 % 256, w / 2 ^ 16 % 256, w / 2 ^ 8 % 256, w % 256]

/-- Embedding of `int8send` (`DataView.setBigInt64`, which wraps modulo
`2^64`): the 8-byte big-endian two's-complement encoding. -/
def int8send (value : Int) : List Nat :=
  bytesBE8 (value % (2 ^ 64 : Int)).toNat

/-- Big-endian word value of a byte list. -/
def beWordOfBytes (bytes : List Nat) : Nat :=
  bytes.foldl (fun acc b => 256 * acc + b % 256) 0

/-- Embedding of `int8recv`: asserts the length is 8 (the std `assert` throws
with an empty message, rendered here as "Assertion failed."), then reads a
signed big-endian 64-bit integer (`DataView.getBigInt64`). -/
def int8recv (bytes : List Nat) : Except String Int :=
  if bytes.length = 8 then
    .ok (if beWordOfBytes bytes < 2 ^ 63 then (beWordOfBytes bytes : Int)
         else (beWordOfBytes bytes : Int) - 2 ^ 64)
  else .error "Assertion failed."

/-- The IEEE-754 double-precision unit-in-the-last-place exponent at integer
magnitude `n`, for the magnitudes reachable below (`n < 2 ^ 63`): integers
below `2 ^ 53` are exactly representable (gap `2 ^ 0`), and the gap doubles
with each further binade. -/
def ulpExp (n : Nat) : Nat :=
  if n < 2 ^ 53 then 0
  else if n < 2 ^ 54 then 1
  else if n < 2 ^ 55 then 2
  else if n < 2 ^ 56 then 3
  else if n < 2 ^ 57 then 4
  else if n < 2 ^ 58 then 5
  else if n < 2 ^ 59 then 6
  else if n < 2 ^ 60 then 7
  else if n < 2 ^ 61 then 8
  else if n < 2 ^ 62 then 9
  else 10

/-- Round `n` to the nearest multiple of `2 ^ k`, ties to the even multiple:
IEEE-754 round-to-nearest-even onto the grid of doubles at `n`'s binade. -/
def roundNearestEven (n k : Nat) : Nat :=
  if k = 0 then n
  else if n % 2 ^ k < 2 ^ (k - 1) then n / 2 ^ k * 2 ^ k
  else if 2 ^ (k - 1) < n % 2 ^ k then (n / 2 ^ k + 1) * 2 ^ k
  else if n / 2 ^ k % 2 = 0 then n / 2 ^ k * 2 ^ k
  else (n / 2 ^ k + 1) * 2 ^ k

/-- The JavaScript double product `m * 1000` for an integer-valued double `m`:
the exact integer product, rounded to the nearest representable double (ties
to even).  For the reachable range (`|m| ≤ 8640946684800000`, so the product
is below `2 ^ 63`) the rounding grid is `roundNearestEven` at `ulpExp`. -/
def jsMul1000 (m : Int) : Int :=
  if m < 0 then
    -(roundNearestEven (m * 1000).natAbs (ulpExp (m * 1000).natAbs) : Int)
  else
    (roundNearestEven (m * 1000).natAbs (ulpExp (m * 1000).natAbs) : Int)

/-- Embedding of `timestamp_send` (src/src/data_type_converters.ts:85-88) on a
valid `Date` with integer Unix-epoch milliseconds `ms`:
`int8send((date.getTime() - 946684800000) * 1000)`.  `getTime()` returns an
integer double (exact: `|ms| ≤ 8.64e15 < 2 ^ 53`) and the subtraction is
exact for the same reason, but the `* 1000` is an IEEE-754 double
multiplication and rounds once the product reaches `2 ^ 53`; `BigInt` then
converts the rounded double exactly. -/
def timestamp_send (ms : Int) : List Nat :=
  int8send (jsMul1000 (ms - 946684800000))

/-- Embedding of `timestamp_recv` (src/src/data_type_converters.ts:90-92):
`new Date(Number(int8recv(array)/1000n) + 946684800000)`, with BigInt `/`
truncating toward zero (`Int.tdiv`); the result is the `Date`'s Unix-epoch
milliseconds.  Unlike `timestamp_send`, this direction is exact: the
`Number(...)` conversion and the addition stay below `2 ^ 53` for every
millisecond count reachable from an 8-byte payload of a valid `Date`. -/
def timestamp_recv (bytes : List Nat) : Except String Int :=
  (int8recv bytes).map (fun us => Int.tdiv us 1000 + 946684800000)

/-- `timestamptz_send` is aliased to `timestamp_send` in the source. -/
def timestamptz_send : Int → List Nat := timestamp_send

/-- `timestamptz_recv` is aliased to `timestamp_recv` in the source. -/
def timestamptz_recv : List Nat → Except String Int := timestamp_recv

theorem length_bytesBE8 (w : Nat) : (bytesBE8 w).length = 8 := rfl

theorem beWordOfBytes_bytesBE8 (w : Nat) (hw : w < 2 ^ 64) :
    beWordOfBytes (bytesBE8 w) = w := by
  simp only [bytesBE8, beWordOfBytes, List.foldl, Nat.mod_mod]
  omega

theorem int8_roundtrip (x : Int) (h1 : -(2 ^ 63) ≤ x) (h2 : x < 2 ^ 63) :
    int8recv (int8send x) = Except.ok x := by
  have hw64 : (x % (2 ^ 64 : Int)).toNat < 2 ^ 64 := by omega
  show int8recv (bytesBE8 (x % (2 ^ 64 : Int)).toNat) = _
  unfold int8recv
  rw [if_pos (length_bytesBE8 _), beWordOfBytes_bytesBE8 _ hw64]
  congr 1
  split
  · omega
  · omega

theorem roundNearestEven_err (n k : Nat) :
    n ≤ roundNearestEven n k + 2 ^ k / 2
    ∧ roundNearestEven n k ≤ n + 2 ^ k / 2 := by
  unfold roundNearestEven
  by_cases hk : k = 0
  · subst hk
    rw [if_pos rfl]
    simp
  · rw [if_neg hk]
    have hP : 2 ^ k = 2 * 2 ^ (k - 1) := by
      rw [← pow_succ']
      congr 1
      omega
    have hdm := Nat.div_add_mod n (2 ^ k)
    have hlt := Nat.mod_lt n (show 0 < 2 ^ k by positivity)
    set q := n / 2 ^ k with hq
    set r := n % 2 ^ k with hr
    have hc : 2 ^ k * q = q * 2 ^ k := Nat.mul_comm _ _
    have hc2 : (q + 1) * 2 ^ k = q * 2 ^ k + 2 ^ k := by ring
    split_ifs <;> omega

theorem roundNearestEven_zero (n : Nat) : roundNearestEven n 0 = n := by
  unfold roundNearestEven
  rw [if_pos rfl]

theorem ulpExp_le (n : Nat) : ulpExp n ≤ 10 := by
  unfold ulpExp
  repeat' split
  all_goals omega

theorem ulpExp_eq_zero (n : Nat) (h : n < 2 ^ 53) : ulpExp n = 0 := by
  unfold ulpExp
  rw [if_pos h]

theorem jsMul1000_exact (m : Int) (h : m.natAbs ≤ 9007199254740) :
    jsMul1000 m = m * 1000 := by
  have hn : (m * 1000).natAbs < 2 ^ 53 := by
    rw [Int.natAbs_mul]
    have : (1000 : Int).natAbs = 1000 := rfl
    rw [this]
    calc m.natAbs * 1000 ≤ 9007199254740 * 1000 := by omega
      _ < 2 ^ 53 := by norm_num
  unfold jsMul1000
  rw [ulpExp_eq_zero _ hn, roundNearestEven_zero]
  split <;> omega

theorem jsMul1000_err (m : Int) :
    (jsMul1000 m - m * 1000).natAbs ≤ 512 := by
  have h10 := ulpExp_le (m * 1000).natAbs
  obtain ⟨herr1, herr2⟩ :=
    roundNearestEven_err (m * 1000).natAbs (ulpExp (m * 1000).natAbs)
  have hhalf : 2 ^ ulpExp (m * 1000).natAbs / 2 ≤ 512 := by
    have hm : (2 : Nat) ^ ulpExp (m * 1000).natAbs ≤ 2 ^ 10 :=
      Nat.pow_le_pow_right (by norm_num) h10
    omega
  unfold jsMul1000
  split <;> omega

theorem tdiv_1000_near (p m : Int) (h : (p - m * 1000).natAbs ≤ 512) :
    (Int.tdiv p 1000 - m).natAbs ≤ 1 := by
  rcases le_or_lt 0 p with hp | hp
  · rw [Int.tdiv_eq_ediv hp (by norm_num)]
    omega
  · have hq : p = -(p.natAbs : Int) := by omega
    rw [hq, Int.neg_tdiv, Int.tdiv_eq_ediv (by positivity) (by norm_num)]
    omega

/-- C9 counterexample: at the valid `Date` with Unix-epoch milliseconds
`ms = 73004278837929` (year 4283, within `|ms| ≤ 8.64e15`), the exact
microsecond count `(ms - 946684800000) * 1000 = 72057594037929000` exceeds
`2 ^ 56` where doubles are 16 apart, so the JS product rounds to
`72057594037928992`: the encoding is not the 8-byte encoding of
`(ms - 946684800000) * 1000`, and the round-trip returns `ms - 1`, refuting
both halves of the original claim. -/
theorem timestamp_send_rounding_cex :
    timestamp_send 73004278837929 = int8send 72057594037928992
    ∧ timestamp_send 73004278837929
        ≠ int8send ((73004278837929 - 946684800000) * 1000)
    ∧ timestamp_recv (timestamp_send 73004278837929)
        = Except.ok 73004278837928 :=
  ⟨by decide, by decide, rfl⟩

/-- C9 (amended): timestamp codec epoch conversion with IEEE-754 rounding.
For a `Date` value with integer Unix-epoch milliseconds `ms` (the valid
`Date` range is at most 8.64e15 ms either side of the epoch),
`timestamp_send` is the 8-byte big-endian signed encoding of the double
product `jsMul1000 (ms - 946684800000)` — intended microseconds since
2000-01-01T00:00:00Z, the PostgreSQL epoch sitting exactly 946 684 800
seconds after the Unix epoch.  Whenever `|ms - 946684800000|` is at most
9 007 199 254 740 (microseconds within `2 ^ 53`, i.e. dates between the
years 1714 and 2255) the product is exact, the encoding equals
`int8send ((ms - 946684800000) * 1000)` and `timestamp_recv` (and the
`timestamptz` aliases, which are the same functions) invert `timestamp_send`
exactly; outside that range the product rounds (by at most 512 µs) and the
round-trip is only within 1 ms of `ms`. -/
theorem timestamp_send_rounded_spec (ms : Int)
    (hlo : -8640000000000000 ≤ ms) (hhi : ms ≤ 8640000000000000) :
    timestamp_send ms = int8send (jsMul1000 (ms - 946684800000))
    ∧ (timestamp_send ms).length = 8
    ∧ ((ms - 946684800000).natAbs ≤ 9007199254740 →
        timestamp_send ms = int8send ((ms - 946684800000) * 1000)
        ∧ timestamp_recv (timestamp_send ms) = Except.ok ms
        ∧ timestamptz_recv (timestamptz_send ms) = Except.ok ms)
    ∧ (∃ r, timestamp_recv (timestamp_send ms) = Except.ok r
        ∧ (r - ms).natAbs ≤ 1) := by
  have herr := jsMul1000_err (ms - 946684800000)
  have hbound : -(2 ^ 63) ≤ jsMul1000 (ms - 946684800000)
      ∧ jsMul1000 (ms - 946684800000) < 2 ^ 63 := by
    constructor <;> omega
  have hrecv8 : int8recv (timestamp_send ms) =
      Except.ok (jsMul1000 (ms - 946684800000)) := by
    unfold timestamp_send
    exact int8_roundtrip _ hbound.1 hbound.2
  have hgen : timestamp_recv (timestamp_send ms) =
      Except.ok (Int.tdiv (jsMul1000 (ms - 946684800000)) 1000
        + 946684800000) := by
    unfold timestamp_recv
    rw [hrecv8]
    rfl
  refine ⟨rfl, rfl, ?_, ?_⟩
  · intro hexact
    have hmul := jsMul1000_exact (ms - 946684800000) hexact
    have hsend : timestamp_send ms = int8send ((ms - 946684800000) * 1000) := by
      unfold timestamp_send
      rw [hmul]
    have hinv : timestamp_recv (timestamp_send ms) = Except.ok ms := by
      rw [hgen, hmul, Int.mul_tdiv_cancel _ (by norm_num)]
      congr 1
      omega
    exact ⟨hsend, hinv, hinv⟩
  · refine ⟨Int.tdiv (jsMul1000 (ms - 946684800000)) 1000 + 946684800000,
      hgen, ?_⟩
    have hnear := tdiv_1000_near (jsMul1000 (ms - 946684800000))
      (ms - 946684800000) (by omega)
    omega

/-- Witness for `timestamp_send_rounded_spec` at the test suite's timestamp
2009-02-13 23:31:30 UTC (1234567890 seconds), inside the exact range. -/
theorem timestamp_send_rounded_spec_witness :
    timestamp_recv (timestamp_send 1234567890000) = Except.ok 1234567890000 :=
  ((timestamp_send_rounded_spec 1234567890000 (by norm_num)
      (by norm_num)).2.2.1 (by norm_num)).2.1

/-! ## data_type_converters.ts: composite record codecs -/

/-- The dynamically typed value passed to `record_send`: either not a JS
array (carrying its `debugValueDesc` description) or an array of field
values, each possibly `null`. -/
inductive RecordValue (V : Type) where
  | notArray (desc : String)
  | array (elems : List (Option V))

/-- The per-field encoding loop of `record_send`: field `i` writes the
attribute oid, then `-1` for `null` or the length-prefixed bytes produced by
the registry; any error is annotated "Record field i+1:". -/
def recordSendFields {V : Type} (regSend : Nat → V → Except String (List Nat))
    (attrtypids : List Nat) : Nat → List (Option V) → Except String (List Nat)
  | _, [] => .ok []
  | i, v :: vs =>
    match (match v with
      | none => Except.ok (oidsend (attrtypids.getD i 0) ++ int4send (-1))
      | some x =>
        match regSend (attrtypids.getD i 0) x with
        | .ok serialized =>
            .ok (oidsend (attrtypids.getD i 0) ++
              int4send serialized.length ++ serialized)
        | .error m => .error m) with
    | .error m => .error s!"Record field {i + 1}: {m}"
    | .ok fieldBytes =>
      match recordSendFields regSend attrtypids (i + 1) vs with
      | .error e => .error e
      | .ok rest => .ok (fieldBytes ++ rest)

/-- Embedding of `record_send` (src/src/data_type_converters.ts:199-225): it
asserts the value is an array, `type.typtype === 'c'`,
`type.attrtypids.length > 0` and the field count, then writes the field
count followed by each encoded field. -/
def record_send {V : Type} (regSend : Nat → V → Except String (List Nat))
    (value : RecordValue V) (type : TypeRow) : Except String (List Nat) :=
  match value with
  | .notArray desc => .error s!"Expected array, got {desc}"
  | .array elems =>
    if type.typtype ≠ "c" then .error "Assertion failed."
    else if type.attrtypids.length = 0 then .error "Assertion failed."
    else if type.attrtypids.length ≠ elems.length then
      .error s!"Composite type '{type.typname}' requires {type.attrtypids.length} elements, {elems.length} passed."
    else
      match recordSendFields regSend type.attrtypids 0 elems with
      | .error e => .error e
      | .ok fields => .ok (int4send elems.length ++ fields)

/-- `DataView.getInt32`: reads a signed big-endian 32-bit integer, raising a
`RangeError` when the offset runs past the buffer. -/
def getInt32 (bytes : List Nat) (offset : Nat) : Except String Int :=
  match bytes[offset]?, bytes[offset + 1]?, bytes[offset + 2]?,
      bytes[offset + 3]? with
  | some b0, some b1, some b2, some b3 =>
    let w : Nat := (b0 % 256) * 2 ^ 24 + (b1 % 256) * 2 ^ 16 +
      (b2 % 256) * 2 ^ 8 + b3 % 256
    .ok (if w < 2 ^ 31 then (w : Int) else (w : Int) - 2 ^ 32)
  | _, _, _, _ => .error "RangeError: Offset is outside the bounds of the DataView"

/-- The per-field decoding loop of `record_recv`: field `i` reads the inline
element oid (asserted equal to the expected attribute oid), the length, then
`null` for `-1` or the registry-decoded bytes; errors are annotated
"Record field i+1:". -/
def recordRecvFields {V : Type} (regRecv : Nat → List Nat → Except String V)
    (array : List Nat) : List Nat → Nat → Nat → Except String (List (Option V))
  | [], _, _ => .ok []
  | attrOid :: rest, i, offset =>
    match getInt32 array offset with
    | .error m => .error s!"Record field {i + 1}: {m}"
    | .ok elemType =>
      if elemType ≠ (attrOid : Int) then .error s!"Record field {i + 1}: Assertion failed."
      else
        match getInt32 array (offset + 4) with
        | .error m => .error s!"Record field {i + 1}: {m}"
        | .ok len =>
          if len = -1 then
            match recordRecvFields regRecv array rest (i + 1) (offset + 8) with
            | .error e => .error e
            | .ok parsedRest => .ok (none :: parsedRest)
          else
            match regRecv attrOid ((array.drop (offset + 8)).take len.toNat) with
            | .error m => .error s!"Record field {i + 1}: {m}"
            | .ok parsed =>
              match recordRecvFields regRecv array rest (i + 1)
                  (offset + 8 + len.toNat) with
              | .error e => .error e
              | .ok parsedRest => .ok (some parsed :: parsedRest)

/-- Embedding of `record_recv` (src/src/data_type_converters.ts:227-256): it
asserts `type.typtype === 'c'` and `type.attrtypids.length > 0`, reads the
field count (asserted equal to the attribute count), then decodes each
field. -/
def record_recv {V : Type} (regRecv : Nat → List Nat → Except String V)
    (array : List Nat) (type : TypeRow) : Except String (List (Option V)) :=
  if type.typtype ≠ "c" then .error "Assertion failed."
  else if type.attrtypids.length = 0 then .error "Assertion failed."
  else
    match getInt32 array 0 with
    | .error m => .error m
    | .ok nelems =>
      if nelems ≠ (type.attrtypids.length : Int) then .error "Assertion failed."
      else recordRecvFields regRecv array type.attrtypids 0 4

/-- C10: the composite record codecs reject zero-attribute composites.  For
any type row whose `attrtypids` list is empty, `record_send` and
`record_recv` raise an assertion failure whatever value, bytes or registry
they are given (`assert(type.attrtypids.length > 0)`, preceded only by the
array-shape and `typtype` assertions, which can themselves only raise). -/
theorem record_codecs_reject_empty_composite {V : Type}
    (regSend : Nat → V → Except String (List Nat))
    (regRecv : Nat → List Nat → Except String V)
    (value : RecordValue V) (bytes : List Nat) (type : TypeRow)
    (h : type.attrtypids = []) :
    (∃ e, record_send regSend value type = Except.error e)
    ∧ (∃ e, record_recv regRecv bytes type = Except.error e) := by
  constructor
  · cases value with
    | notArray desc => exact ⟨_, rfl⟩
    | array elems =>
      by_cases hc : type.typtype = "c"
      · refine ⟨"Assertion failed.", ?_⟩
        simp [record_send, hc, h]
      · refine ⟨"Assertion failed.", ?_⟩
        simp [record_send, hc]
  · by_cases hc : type.typtype = "c"
    · refine ⟨"Assertion failed.", ?_⟩
      simp [record_recv, hc, h]
    · refine ⟨"Assertion failed.", ?_⟩
      simp [record_recv, hc]

/-- A composite type row with no (non-dropped) attributes. -/
def emptyCompositeRow : TypeRow :=
  { oid := 16385, typname := "emptyrow", typtype := "c", typelem := 0,
    typreceive := "record_recv", typsend := "record_send", attrtypids := [] }

/-- A registry send function that always succeeds (for the witness). -/
def trivialSend : Nat → Unit → Except String (List Nat) := fun _ _ => .ok []

/-- A registry recv function that always succeeds (for the witness). -/
def trivialRecv : Nat → List Nat → Except String Unit := fun _ _ => .ok ()

/-- Witness for `record_codecs_reject_empty_composite` at a concrete
zero-attribute composite row. -/
theorem record_codecs_reject_empty_composite_witness :
    (∃ e, record_send trivialSend (RecordValue.array []) emptyCompositeRow =
      Except.error e)
    ∧ (∃ e, record_recv trivialRecv [] emptyCompositeRow = Except.error e) :=
  record_codecs_reject_empty_composite trivialSend trivialRecv
    (RecordValue.array []) [] emptyCompositeRow rfl

/-! ## prepared_statement.ts: parameter serialisation and lock handling -/

/-- The indexed walk of `_serializeParams`'s `values.map((value, i) => ...)`
(src/src/prepared_statement.ts:117-126): `null` serialises to `null` (wire
NULL) without consulting the registry; other values go through
`registry.send` for the parameter's type oid; a send error is re-raised with
its message prefixed "Error sending param $i+1: ".  JavaScript `map` aborts
at the first exception, hence the short-circuiting recursion. -/
def serializeParamsGo {V : Type} (regSend : Nat → V → Except String (List Nat))
    (paramOids : List Nat) :
    Nat → List (Option V) → Except String (List (Option (List Nat)))
  | _, [] => .ok []
  | i, v :: vs =>
    match (match v with
      | none => Except.ok (none : Option (List Nat))
      | some x =>
        match regSend (paramOids.getD i 0) x with
        | .ok bytes => .ok (some bytes)
        | .error m => .error s!"Error sending param ${i + 1}: {m}") with
    | .error e => .error e
    | .ok b =>
      match serializeParamsGo regSend paramOids (i + 1) vs with
      | .error e => .error e
      | .ok rest => .ok (b :: rest)

/-- Embedding of `_serializeParams` (src/src/prepared_statement.ts:113-127):
the length check, then the per-value serialisation. -/
def serializeParams {V : Type} (regSend : Nat → V → Except String (List Nat))
    (paramOids : List Nat) (values : List (Option V)) :
    Except String (List (Option (List Nat))) :=
  if values.length = paramOids.length then
    serializeParamsGo regSend paramOids 0 values
  else
    .error s!"Statement requires {paramOids.length} params, {values.length} passed."

/-- The client messages `_executeStreamingConsumingExistingLock` writes. -/
inductive ClientMsg where
  | bindMsg (paramValues : List (Option (List Nat)))
  | executeMsg
  | syncMsg

/-- Observable outcome of one `_executeStreamingConsumingExistingLock` call up
to the `lock.write` of the command batch: whether the lock was returned to
the queue, which messages were written, and the result or error. -/
structure ExecAttempt where
  lockReleased : Bool
  written : List ClientMsg
  result : Except String (List (Option (List Nat)))

/-- Embedding of `_executeStreamingConsumingExistingLock`
(src/src/prepared_statement.ts:37-52): serialisation errors release the lock
and re-raise before anything is written; on success the
`Bind`/`Execute`/`Sync` batch is written and the lock stays held by the row
iterator. -/
def executeStreamingConsumingExistingLock {V : Type}
    (regSend : Nat → V → Except String (List Nat)) (paramOids : List Nat)
    (values : List (Option V)) : ExecAttempt :=
  match serializeParams regSend paramOids values with
  | .error e => { lockReleased := true, written := [], result := .error e }
  | .ok paramValues =>
    { lockReleased := false,
      written := [.bindMsg paramValues, .executeMsg, .syncMsg],
      result := .ok paramValues }

theorem serializeParamsGo_null {V : Type}
    (regSend : Nat → V → Except String (List Nat)) (paramOids : List Nat) :
    ∀ (values : List (Option V)) (i k : Nat)
      (out : List (Option (List Nat))),
      serializeParamsGo regSend paramOids i values = Except.ok out →
      values[k]? = some none → out[k]? = some none := by
  intro values
  induction values with
  | nil => intro i k out hok hk; simp at hk
  | cons v vs ih =>
    intro i k out hok hk
    cases v with
    | none =>
      simp only [serializeParamsGo] at hok
      cases hrec : serializeParamsGo regSend paramOids (i + 1) vs with
      | error e => rw [hrec] at hok; cases hok
      | ok rest =>
        rw [hrec] at hok
        cases hok
        cases k with
        | zero => simp
        | succ k2 =>
          simp only [List.getElem?_cons_succ] at hk ⊢
          exact ih (i + 1) k2 rest hrec hk
    | some x =>
      simp only [serializeParamsGo] at hok
      cases hsend : regSend (paramOids.getD i 0) x with
      | error m => rw [hsend] at hok; cases hok
      | ok bytes =>
        rw [hsend] at hok
        cases hrec : serializeParamsGo regSend paramOids (i + 1) vs with
        | error e => rw [hrec] at hok; cases hok
        | ok rest =>
          rw [hrec] at hok
          cases hok
          cases k with
          | zero => simp at hk
          | succ k2 =>
            simp only [List.getElem?_cons_succ] at hk ⊢
            exact ih (i + 1) k2 rest hrec hk

theorem serializeParamsGo_error_at {V : Type}
    (regSend : Nat → V → Except String (List Nat)) (paramOids : List Nat) :
    ∀ (values : List (Option V)) (k i : Nat) (x : V) (m : String),
      values[k]? = some (some x) →
      regSend (paramOids.getD (i + k) 0) x = Except.error m →
      (∀ j, j < k → ∀ y : V, values[j]? = some (some y) →
        ∃ b, regSend (paramOids.getD (i + j) 0) y = Except.ok b) →
      serializeParamsGo regSend paramOids i values =
        Except.error s!"Error sending param ${i + k + 1}: {m}" := by
  intro values
  induction values with
  | nil => intro k i x m hk; simp at hk
  | cons v vs ih =>
    intro k i x m hk hsend hpre
    cases k with
    | zero =>
      simp only [List.getElem?_cons_zero, Option.some.injEq] at hk
      subst hk
      simp only [Nat.add_zero] at hsend
      simp only [serializeParamsGo, hsend, Nat.add_zero]
    | succ k2 =>
      simp only [List.getElem?_cons_succ] at hk
      have hsend2 : regSend (paramOids.getD (i + 1 + k2) 0) x = Except.error m := by
        have hidx : i + 1 + k2 = i + (k2 + 1) := by omega
        rw [hidx]
        exact hsend
      have hpre2 : ∀ j, j < k2 → ∀ y : V, vs[j]? = some (some y) →
          ∃ b, regSend (paramOids.getD (i + 1 + j) 0) y = Except.ok b := by
        intro j hj y hy
        have hidx : i + 1 + j = i + (j + 1) := by omega
        rw [hidx]
        exact hpre (j + 1) (by omega) y (by simpa using hy)
      have hrec := ih k2 (i + 1) x m hk hsend2 hpre2
      have hidx2 : i + 1 + k2 + 1 = i + (k2 + 1) + 1 := by omega
      rw [hidx2] at hrec
      cases v with
      | none => simp only [serializeParamsGo, hrec]
      | some y =>
        obtain ⟨b, hb⟩ := hpre 0 (by omega) y (by simp)
        simp only [Nat.add_zero] at hb
        simp only [serializeParamsGo, hb, hrec]

/-- C7: parameter serialisation.  A call with `values.length != params.length`
raises "Statement requires N params, M passed."; a `null` value serialises to
the wire NULL (`null` in `paramValues`) for every registry send function; an
error while encoding value `k` (all earlier values encoding fine) is
re-raised with its message prefixed "Error sending param $k+1: "; and
whenever serialisation fails, `_executeStreamingConsumingExistingLock`
releases the lock, writes no `Bind`/`Execute`/`Sync` message and propagates
the error; on success it writes exactly the `Bind`/`Execute`/`Sync` batch and
keeps the lock. -/
theorem serializeParams_spec {V : Type}
    (regSend : Nat → V → Except String (List Nat)) (paramOids : List Nat)
    (values : List (Option V)) :
    (values.length ≠ paramOids.length →
      serializeParams regSend paramOids values = Except.error
        s!"Statement requires {paramOids.length} params, {values.length} passed.")
    ∧ (∀ out : List (Option (List Nat)),
        serializeParams regSend paramOids values = Except.ok out →
        ∀ k : Nat, values[k]? = some none → out[k]? = some none)
    ∧ (values.length = paramOids.length →
      ∀ (k : Nat) (x : V) (m : String),
        values[k]? = some (some x) →
        regSend (paramOids.getD k 0) x = Except.error m →
        (∀ j, j < k → ∀ y : V, values[j]? = some (some y) →
          ∃ b, regSend (paramOids.getD j 0) y = Except.ok b) →
        serializeParams regSend paramOids values =
          Except.error s!"Error sending param ${k + 1}: {m}")
    ∧ (∀ e, serializeParams regSend paramOids values = Except.error e →
        executeStreamingConsumingExistingLock regSend paramOids values =
          { lockReleased := true, written := [], result := Except.error e })
    ∧ (∀ out, serializeParams regSend paramOids values = Except.ok out →
        executeStreamingConsumingExistingLock regSend paramOids values =
          { lockReleased := false,
            written := [ClientMsg.bindMsg out, ClientMsg.executeMsg,
              ClientMsg.syncMsg],
            result := Except.ok out }) := by
  refine ⟨?_, ?_, ?_, ?_, ?_⟩
  · intro hne
    simp only [serializeParams, if_neg hne]
  · intro out hok k hk
    by_cases hlen : values.length = paramOids.length
    · simp only [serializeParams, if_pos hlen] at hok
      exact serializeParamsGo_null regSend paramOids values 0 k out hok hk
    · simp only [serializeParams, if_neg hlen] at hok
      cases hok
  · intro hlen k x m hk hsend hpre
    simp only [serializeParams, if_pos hlen]
    have h0 : regSend (paramOids.getD (0 + k) 0) x = Except.error m := by
      simpa using hsend
    have hpre0 : ∀ j, j < k → ∀ y : V, values[j]? = some (some y) →
        ∃ b, regSend (paramOids.getD (0 + j) 0) y = Except.ok b := by
      intro j hj y hy
      simpa using hpre j hj y hy
    have := serializeParamsGo_error_at regSend paramOids values k 0 x m hk h0 hpre0
    simpa using this
  · intro e he
    simp only [executeStreamingConsumingExistingLock, he]
  · intro out hout
    simp only [executeStreamingConsumingExistingLock, hout]

/-! ## data_type_converters.ts: json/jsonb codecs

`json_send`/`json_recv` delegate to the JavaScript runtime's
`JSON.stringify`/`JSON.parse` and to the UTF-8 `encode`/`decode` helpers of
the standard library; those collaborators are modelled concretely below on
the JSON-representable value domain (null, booleans, finite numbers, strings
and arrays/objects thereof).  A finite double is represented by the
sign/digits/exponent triple of its ECMAScript decimal expansion: ECMA-262
Number::toString (6.1.6.1.20) picks, for a nonzero finite `x`, digits
`d1 … dk` (`dk` nonzero) and an exponent `n` such that the decimal literal
`0.d1…dk · 10 ^ n` evaluates to exactly `x` (shortest such, nearest on
ties), and `JSON.stringify` prints that decimal by the fixed formatting
rules implemented in `numSer` below; `-0` prints as `0` and is identified
with `0`, as `==` does.  `jnum neg ds n` carries that triple, so the printed
number literal is modelled exactly — including the exponential notation used
for magnitudes at least `1e21` or below `1e-6` — and reading the literal
back at the digit level is exact because the literal evaluates to the very
double it was printed from.  The parser models `JSON.parse` on the
whitespace-free texts `JSON.stringify` produces. -/

mutual
/-- A JSON-representable JavaScript value.  `jnum neg ds n` is the finite
double whose ECMAScript decimal expansion is `±0.d1…dk · 10 ^ n` (zero is
`jnum false [] 0`). -/
inductive JsonVal where
  | jnull
  | jbool (b : Bool)
  | jnum (neg : Bool) (ds : List Nat) (n : Int)
  | jstr (s : String)
  | jarr (elems : JsonList)
  | jobj (members : JsonMembers)

/-- A list of JSON values (a JS array). -/
inductive JsonList where
  | nil
  | cons (hd : JsonVal) (tl : JsonList)

/-- The ordered own-properties of a JS object. -/
inductive JsonMembers where
  | nil
  | cons (key : String) (val : JsonVal) (tl : JsonMembers)
end

/-- Decimal digits of `n`, most significant first (`String(n)` for a
natural number). -/
def natSer (n : Nat) : List Char :=
  if n < 10 then [Char.ofNat (48 + n)]
  else natSer (n / 10) ++ [Char.ofNat (48 + n % 10)]
decreasing_by exact Nat.div_lt_self (by omega) (by omega)

/-- Digit values to digit characters. -/
def digitChars (ds : List Nat) : List Char :=
  ds.map (fun d => Char.ofNat (48 + d))

/-- The well-formedness of a number triple: the digits of a canonical
decimal expansion are decimal digits, the first and last are nonzero (the
expansion is shortest), and zero is represented only as `(false, [], 0)`. -/
def wfNum (neg : Bool) (ds : List Nat) (n : Int) : Bool :=
  match ds with
  | [] => !neg && n == 0
  | d :: _ => d != 0 && ds.all (fun x => decide (x < 10)) && ds.getLastD 1 != 0

/-- ECMA-262 Number::toString (6.1.6.1.20, steps 5-10) on the nonzero
magnitude `0.d1…dk · 10 ^ n`: plain digits padded with zeros when
`k ≤ n ≤ 21`, an embedded decimal point when `0 < n ≤ 21 < k + (21 - n)`,
a `0.00…` prefix when `-6 < n ≤ 0`, and exponential notation (exponent
`n - 1`, always signed) otherwise. -/
def numSerCore (ds : List Nat) (n : Int) : List Char :=
  if (ds.length : Int) ≤ n ∧ n ≤ 21 then
    digitChars ds ++ List.replicate (n - ds.length).toNat '0'
  else if 0 < n ∧ n ≤ 21 then
    digitChars (ds.take n.toNat) ++ '.' :: digitChars (ds.drop n.toNat)
  else if -6 < n ∧ n ≤ 0 then
    '0' :: '.' :: (List.replicate (-n).toNat '0' ++ digitChars ds)
  else
    (match ds with
     | [] => []
     | [d] => [Char.ofNat (48 + d)]
     | d :: ds2 => Char.ofNat (48 + d) :: '.' :: digitChars ds2)
    ++ 'e' :: (if 0 ≤ n - 1 then '+' else '-') :: natSer (n - 1).natAbs

/-- `String(x)` (= the number text `JSON.stringify` emits) for the finite
double represented by `(neg, ds, n)`; both `0` and `-0` print as `"0"`. -/
def numSer (neg : Bool) (ds : List Nat) (n : Int) : List Char :=
  if ds.isEmpty then ['0']
  else (if neg then ['-'] else []) ++ numSerCore ds n

/-- Lowercase hexadecimal digit. -/
def hexDigitChar (n : Nat) : Char :=
  if n < 10 then Char.ofNat (48 + n) else Char.ofNat (87 + n)

/-- How `JSON.stringify` escapes one character inside a string literal:
quote and backslash get a backslash escape, the named control characters get
`\b \t \n \f \r`, other control characters get `\u00xx`, everything else is
emitted verbatim. -/
def escapeChar (c : Char) : List Char :=
  if c = '"' then ['\\', '"']
  else if c = '\\' then ['\\', '\\']
  else if c = Char.ofNat 8 then ['\\', 'b']
  else if c = Char.ofNat 9 then ['\\', 't']
  else if c = Char.ofNat 10 then ['\\', 'n']
  else if c = Char.ofNat 12 then ['\\', 'f']
  else if c = Char.ofNat 13 then ['\\', 'r']
  else if c.toNat < 32 then
    ['\\', 'u', '0', '0', hexDigitChar (c.toNat / 16), hexDigitChar (c.toNat % 16)]
  else [c]

/-- Escape a whole string body. -/
def escChars : List Char → List Char
  | [] => []
  | c :: cs => escapeChar c ++ escChars cs

mutual
/-- The characters of `JSON.stringify(v)` (no whitespace). -/
def jser : JsonVal → List Char
  | .jnull => ['n', 'u', 'l', 'l']
  | .jbool true => ['t', 'r', 'u', 'e']
  | .jbool false => ['f', 'a', 'l', 's', 'e']
  | .jnum neg ds n => numSer neg ds n
  | .jstr s => '"' :: (escChars s.data ++ ['"'])
  | .jarr .nil => ['[', ']']
  | .jarr (.cons x xs) => '[' :: jserElemsTail x xs
  | .jobj .nil => ['{', '}']
  | .jobj (.cons k v ms) => '{' :: jserMembersTail k v ms
termination_by v => sizeOf v
decreasing_by all_goals (simp_wf <;> omega)

/-- Comma-separated element serialisations, closed by `]`. -/
def jserElemsTail : JsonVal → JsonList → List Char
  | x, .nil => jser x ++ [']']
  | x, .cons y ys => jser x ++ ',' :: jserElemsTail y ys
termination_by x xs => sizeOf x + sizeOf xs
decreasing_by all_goals (simp_wf <;> omega)

/-- Comma-separated `"key":value` serialisations, closed by `}`. -/
def jserMembersTail : String → JsonVal → JsonMembers → List Char
  | k, v, .nil =>
    ('"' :: (escChars k.data ++ ['"'])) ++ ':' :: (jser v ++ ['}'])
  | k, v, .cons k2 v2 ms =>
    ('"' :: (escChars k.data ++ ['"'])) ++ ':' :: (jser v ++ ',' :: jserMembersTail k2 v2 ms)
termination_by k v ms => sizeOf v + sizeOf ms
decreasing_by all_goals (simp_wf <;> omega)
end

mutual
/-- A value denotes a finite double at every number node: each `jnum`
triple is a canonical decimal expansion (`wfNum`). -/
def JsonVal.wf : JsonVal → Bool
  | .jnull => true
  | .jbool _ => true
  | .jnum neg ds n => wfNum neg ds n
  | .jstr _ => true
  | .jarr l => JsonList.wf l
  | .jobj m => JsonMembers.wf m

/-- All elements are well-formed. -/
def JsonList.wf : JsonList → Bool
  | .nil => true
  | .cons x xs => JsonVal.wf x && JsonList.wf xs

/-- All member values are well-formed. -/
def JsonMembers.wf : JsonMembers → Bool
  | .nil => true
  | .cons _ v ms => JsonVal.wf v && JsonMembers.wf ms
end

/-- Value of one hexadecimal digit. -/
def hexVal (c : Char) : Option Nat :=
  if 48 ≤ c.toNat ∧ c.toNat ≤ 57 then some (c.toNat - 48)
  else if 97 ≤ c.toNat ∧ c.toNat ≤ 102 then some (c.toNat - 87)
  else if 65 ≤ c.toNat ∧ c.toNat ≤ 70 then some (c.toNat - 55)
  else none

/-- Parse the body of a JSON string literal after the opening quote: returns
the decoded characters and the rest of the input after the closing quote.
Unescaped control characters are rejected, as in `JSON.parse`. -/
def parseStrBody : List Char → Option (List Char × List Char)
  | [] => none
  | c :: rest =>
    if c = '"' then some ([], rest)
    else if c = '\\' then
      match rest with
      | [] => none
      | e :: rest2 =>
        if e = '"' then (parseStrBody rest2).map (fun p => ('"' :: p.1, p.2))
        else if e = '\\' then (parseStrBody rest2).map (fun p => ('\\' :: p.1, p.2))
        else if e = '/' then (parseStrBody rest2).map (fun p => ('/' :: p.1, p.2))
        else if e = 'b' then (parseStrBody rest2).map (fun p => (Char.ofNat 8 :: p.1, p.2))
        else if e = 't' then (parseStrBody rest2).map (fun p => (Char.ofNat 9 :: p.1, p.2))
        else if e = 'n' then (parseStrBody rest2).map (fun p => (Char.ofNat 10 :: p.1, p.2))
        else if e = 'f' then (parseStrBody rest2).map (fun p => (Char.ofNat 12 :: p.1, p.2))
        else if e = 'r' then (parseStrBody rest2).map (fun p => (Char.ofNat 13 :: p.1, p.2))
        else if e = 'u' then
          match rest2 with
          | h1 :: h2 :: h3 :: h4 :: rest3 =>
            match hexVal h1, hexVal h2, hexVal h3, hexVal h4 with
            | some d1, some d2, some d3, some d4 =>
              (parseStrBody rest3).map (fun p =>
                (Char.ofNat (4096 * d1 + 256 * d2 + 16 * d3 + d4) :: p.1, p.2))
            | _, _, _, _ => none
          | _ => none
        else none
    else if c.toNat < 32 then none
    else (parseStrBody rest).map (fun p => (c :: p.1, p.2))

/-- Digit values of the maximal digit run, and the rest of the input. -/
def readDigits (cs : List Char) : List Nat × List Char :=
  ((takeDigits cs).1.map (fun c => c.toNat - 48), (takeDigits cs).2)

/-- Numeric value of a digit list, most significant first. -/
def digitsVal (ds : List Nat) : Nat :=
  ds.foldl (fun acc d => 10 * acc + d) 0

/-- Count and drop the leading zero digits. -/
def stripLeadZeros : List Nat → Nat × List Nat
  | [] => (0, [])
  | d :: ds =>
    if d = 0 then ((stripLeadZeros ds).1 + 1, (stripLeadZeros ds).2)
    else (0, d :: ds)

/-- Drop the trailing zero digits. -/
def stripTrailZeros (ds : List Nat) : List Nat :=
  (stripLeadZeros ds.reverse).2.reverse

/-- Evaluate a parsed number literal `±(I.F) · 10 ^ E` (integer digits
`ids`, fraction digits `fds`) to the canonical sign/digits/exponent triple
of the double it denotes: drop leading and trailing zeros around the
significant digits and place the decimal exponent accordingly — exact for
the shortest expansions `JSON.stringify` emits, whose literals denote
exactly the double they were printed from. -/
def normNum (neg : Bool) (ids fds : List Nat) (e : Int) : Bool × List Nat × Int :=
  if (stripTrailZeros (stripLeadZeros (ids ++ fds)).2).isEmpty then
    (false, [], 0)
  else
    (neg, stripTrailZeros (stripLeadZeros (ids ++ fds)).2,
      (ids.length : Int) + e - (stripLeadZeros (ids ++ fds)).1)

/-- Read the optional exponent part (`[eE] [+-]? digits`) of a number
literal. -/
def parseNumExp (ids fds : List Nat) (r2 : List Char) :
    Option ((List Nat × List Nat × Int) × List Char) :=
  match r2 with
  | [] => some ((ids, fds, 0), [])
  | c :: r =>
    if c = 'e' ∨ c = 'E' then
      match r with
      | [] => none
      | c2 :: r3 =>
        if c2 = '+' then
          match readDigits r3 with
          | ([], _) => none
          | (e :: es, r4) => some ((ids, fds, (digitsVal (e :: es) : Int)), r4)
        else if c2 = '-' then
          match readDigits r3 with
          | ([], _) => none
          | (e :: es, r4) => some ((ids, fds, -(digitsVal (e :: es) : Int)), r4)
        else
          match readDigits (c2 :: r3) with
          | ([], _) => none
          | (e :: es, r4) => some ((ids, fds, (digitsVal (e :: es) : Int)), r4)
    else some ((ids, fds, 0), c :: r)

/-- Read the optional fraction part (`. digits`), then the exponent. -/
def parseNumFrac (ids : List Nat) (r1 : List Char) :
    Option ((List Nat × List Nat × Int) × List Char) :=
  match r1 with
  | [] => parseNumExp ids [] []
  | c :: r =>
    if c = '.' then
      match readDigits r with
      | ([], _) => none
      | (f :: fs, r2) => parseNumExp ids (f :: fs) r2
    else parseNumExp ids [] (c :: r)

/-- Read the unsigned body of a number literal: integer digits, fraction,
exponent. -/
def parseNumBody (cs : List Char) :
    Option ((List Nat × List Nat × Int) × List Char) :=
  match readDigits cs with
  | ([], _) => none
  | (i :: is, r1) => parseNumFrac (i :: is) r1

/-- Read a JSON number literal and return the canonical triple of the
double it denotes. -/
def parseNumber (cs : List Char) :
    Option ((Bool × List Nat × Int) × List Char) :=
  match cs with
  | [] => none
  | c :: cs1 =>
    if c = '-' then
      (parseNumBody cs1).map
        (fun p => (normNum true p.1.1 p.1.2.1 p.1.2.2, p.2))
    else
      (parseNumBody (c :: cs1)).map
        (fun p => (normNum false p.1.1 p.1.2.1 p.1.2.2, p.2))

mutual
/-- Recursive-descent JSON parser (model of `JSON.parse` on whitespace-free
input), with a fuel argument bounding the recursion depth. -/
def parseVal : Nat → List Char → Option (JsonVal × List Char)
  | 0, _ => none
  | fuel + 1, cs =>
    match cs with
    | [] => none
    | c :: rest =>
      if c = 'n' then
        match rest with
        | 'u' :: 'l' :: 'l' :: rest2 => some (.jnull, rest2)
        | _ => none
      else if c = 't' then
        match rest with
        | 'r' :: 'u' :: 'e' :: rest2 => some (.jbool true, rest2)
        | _ => none
      else if c = 'f' then
        match rest with
        | 'a' :: 'l' :: 's' :: 'e' :: rest2 => some (.jbool false, rest2)
        | _ => none
      else if c = '"' then
        (parseStrBody rest).map (fun p => (.jstr (String.mk p.1), p.2))
      else if c = '[' then
        match rest with
        | [] => none
        | r :: rtail =>
          if r = ']' then some (.jarr .nil, rtail)
          else (parseElems fuel (r :: rtail)).map (fun p => (.jarr p.1, p.2))
      else if c = '{' then
        match rest with
        | [] => none
        | r :: rtail =>
          if r = '}' then some (.jobj .nil, rtail)
          else (parseMembers fuel (r :: rtail)).map (fun p => (.jobj p.1, p.2))
      else if c = '-' then
        (parseNumber (c :: rest)).map
          (fun p => (.jnum p.1.1 p.1.2.1 p.1.2.2, p.2))
      else if isDigitChar c then
        (parseNumber (c :: rest)).map
          (fun p => (.jnum p.1.1 p.1.2.1 p.1.2.2, p.2))
      else none

/-- Parse `elem (',' elem)* ']'`. -/
def parseElems : Nat → List Char → Option (JsonList × List Char)
  | 0, _ => none
  | fuel + 1, cs =>
    match parseVal fuel cs with
    | none => none
    | some (v, rest) =>
      match rest with
      | [] => none
      | r :: rtail =>
        if r = ',' then
          match parseElems fuel rtail with
          | none => none
          | some (vs, rest3) => some (.cons v vs, rest3)
        else if r = ']' then some (.cons v .nil, rtail)
        else none

/-- Parse `'"' key '"' ':' value (',' ...)* '}'`. -/
def parseMembers : Nat → List Char → Option (JsonMembers × List Char)
  | 0, _ => none
  | fuel + 1, cs =>
    match cs with
    | [] => none
    | c :: rest =>
      if c = '"' then
        match parseStrBody rest with
        | none => none
        | some (key, rest1) =>
          match rest1 with
          | [] => none
          | r1 :: rtail1 =>
            if r1 = ':' then
              match parseVal fuel rtail1 with
              | none => none
              | some (v, rest2) =>
                match rest2 with
                | [] => none
                | r2 :: rtail2 =>
                  if r2 = ',' then
                    match parseMembers fuel rtail2 with
                    | none => none
                    | some (ms, rest3) => some (.cons (String.mk key) v ms, rest3)
                  else if r2 = '}' then some (.cons (String.mk key) v .nil, rtail2)
                  else none
            else none
      else none
end

/-- `JSON.stringify(v)`. -/
def jsonStringify (v : JsonVal) : String := String.mk (jser v)

/-- `JSON.parse(s)` (the fuel `s.length + 1` dominates any parse tree the
text can describe). -/
def jsonParse (s : String) : Except String JsonVal :=
  match parseVal (s.length + 1) s.data with
  | some (v, []) => .ok v
  | _ => .error "SyntaxError: Unexpected token in JSON"

/-- UTF-8 encoding of one character. -/
def utf8EncodeChar (c : Char) : List Nat :=
  if c.toNat < 128 then [c.toNat]
  else if c.toNat < 2048 then
    [192 + c.toNat / 64, 128 + c.toNat % 64]
  else if c.toNat < 65536 then
    [224 + c.toNat / 4096, 128 + c.toNat / 64 % 64, 128 + c.toNat % 64]
  else
    [240 + c.toNat / 262144, 128 + c.toNat / 4096 % 64, 128 + c.toNat / 64 % 64,
     128 + c.toNat % 64]

/-- The std `encode` helper: UTF-8 bytes of a string. -/
def utf8Encode : List Char → List Nat
  | [] => []
  | c :: cs => utf8EncodeChar c ++ utf8Encode cs

/-- The std `decode` helper: UTF-8 decoding of a byte list (lenient outside
the encoder's image), with a fuel argument bounding the number of decoded
characters (each character consumes at least one byte). -/
def utf8DecodeAux : Nat → List Nat → Option (List Char)
  | _, [] => some []
  | 0, _ :: _ => none
  | fuel + 1, b :: rest =>
    if b < 128 then (utf8DecodeAux fuel rest).map (Char.ofNat b :: ·)
    else if b < 192 then none
    else if b < 224 then
      match rest with
      | [] => none
      | b2 :: rest2 =>
        if 128 ≤ b2 ∧ b2 < 192 then
          (utf8DecodeAux fuel rest2).map
            (Char.ofNat ((b - 192) * 64 + (b2 - 128)) :: ·)
        else none
    else if b < 240 then
      match rest with
      | b2 :: b3 :: rest2 =>
        if (128 ≤ b2 ∧ b2 < 192) ∧ (128 ≤ b3 ∧ b3 < 192) then
          (utf8DecodeAux fuel rest2).map
            (Char.ofNat ((b - 224) * 4096 + (b2 - 128) * 64 + (b3 - 128)) :: ·)
        else none
      | _ => none
    else
      match rest with
      | b2 :: b3 :: b4 :: rest2 =>
        if (128 ≤ b2 ∧ b2 < 192) ∧ (128 ≤ b3 ∧ b3 < 192) ∧
            (128 ≤ b4 ∧ b4 < 192) then
          (utf8DecodeAux fuel rest2).map
            (Char.ofNat ((b - 240) * 262144 + (b2 - 128) * 4096 +
              (b3 - 128) * 64 + (b4 - 128)) :: ·)
        else none
      | _ => none

/-- UTF-8 decoding of a byte list. -/
def utf8DecodeChars (bytes : List Nat) : Option (List Char) :=
  utf8DecodeAux bytes.length bytes

/-- Embedding of `json_send` (src/src/data_type_converters.ts:96-98):
`encode(JSON.stringify(value))`. -/
def json_send (v : JsonVal) : List Nat := utf8Encode (jsonStringify v).data

/-- Embedding of `json_recv`: `JSON.parse(decode(array))`. -/
def json_recv (bytes : List Nat) : Except String JsonVal :=
  match utf8DecodeChars bytes with
  | some cs => jsonParse (String.mk cs)
  | none => .error "TypeError: invalid UTF-8"

/-- Embedding of `jsonb_send` (src/src/data_type_converters.ts:104-110): the
version byte `0x01` followed by the bytes of `json_send`. -/
def jsonb_send (v : JsonVal) : List Nat := 1 :: json_send v

/-- Embedding of `jsonb_recv` (src/src/data_type_converters.ts:112-115):
`assert(array[0] === 1)` (also failing on empty input, where `array[0]` is
`undefined`), then `json_recv` on the remaining bytes. -/
def jsonb_recv (bytes : List Nat) : Except String JsonVal :=
  match bytes with
  | b :: rest => if b = 1 then json_recv rest else .error "Assertion failed."
  | [] => .error "Assertion failed."

theorem charToNat_ofNat (n : Nat) (h : n < 55296) : (Char.ofNat n).toNat = n := by
  rw [Char.ofNat, dif_pos (Or.inl h)]
  rfl

theorem natSer_ne_nil (n : Nat) : natSer n ≠ [] := by
  rw [natSer]
  split
  · simp
  · simp

theorem natSer_digits (n : Nat) : ∀ c ∈ natSer n, isDigitChar c = true := by
  induction n using Nat.strong_induction_on with
  | _ n ih =>
    rw [natSer]
    split
    · intro c hc
      simp only [List.mem_singleton] at hc
      subst hc
      simp only [isDigitChar, charToNat_ofNat (48 + n) (by omega)]
      simp only [Bool.and_eq_true, decide_eq_true_eq]
      omega
    · intro c hc
      rw [List.mem_append] at hc
      cases hc with
      | inl hmem => exact ih (n / 10) (Nat.div_lt_self (by omega) (by omega)) c hmem
      | inr hmem =>
        simp only [List.mem_singleton] at hmem
        subst hmem
        simp only [isDigitChar, charToNat_ofNat (48 + n % 10) (by omega)]
        simp only [Bool.and_eq_true, decide_eq_true_eq]
        omega

theorem digitsToNat_append_digit (ds : List Char) (c : Char) :
    digitsToNat (ds ++ [c]) = 10 * digitsToNat ds + (c.toNat - 48) := by
  simp [digitsToNat, List.foldl_append]

theorem digitsToNat_natSer (n : Nat) : digitsToNat (natSer n) = n := by
  induction n using Nat.strong_induction_on with
  | _ n ih =>
    rw [natSer]
    split
    · simp only [digitsToNat, List.foldl]
      rw [charToNat_ofNat (48 + n) (by omega)]
      omega
    · rw [digitsToNat_append_digit, ih (n / 10) (Nat.div_lt_self (by omega) (by omega))]
      rw [charToNat_ofNat (48 + n % 10) (by omega)]
      omega

/-- The delimiter condition for the number parser: the suffix after a
serialised value never starts with a digit. -/
def nonDigitStart : List Char → Prop
  | [] => True
  | c :: _ => isDigitChar c = false

theorem takeDigits_append (ds rest : List Char)
    (hds : ∀ c ∈ ds, isDigitChar c = true) (hrest : nonDigitStart rest) :
    takeDigits (ds ++ rest) = (ds, rest) := by
  induction ds with
  | nil =>
    simp only [List.nil_append]
    cases rest with
    | nil => rfl
    | cons c cs =>
      simp only [nonDigitStart] at hrest
      simp [takeDigits, hrest]
  | cons d ds2 ih =>
    have hd : isDigitChar d = true := hds d (by simp)
    simp only [List.cons_append, takeDigits, hd, if_true, List.append_eq]
    rw [ih (fun c hc => hds c (by simp [hc]))]

theorem natSer_cons (n : Nat) :
    ∃ d ds, natSer n = d :: ds ∧ isDigitChar d = true := by
  cases hser : natSer n with
  | nil => exact absurd hser (natSer_ne_nil n)
  | cons d ds =>
    refine ⟨d, ds, rfl, ?_⟩
    exact natSer_digits n d (by rw [hser]; simp)

/-- The delimiter condition for the number reader: the suffix after a
serialised value starts with none of the characters that could extend a
number literal (digits, the decimal point, an exponent marker). -/
def numBreakStart : List Char → Prop
  | [] => True
  | c :: _ => isDigitChar c = false ∧ c ≠ '.' ∧ c ≠ 'e' ∧ c ≠ 'E'

theorem numBreakStart_nonDigit (rest : List Char) (h : numBreakStart rest) :
    nonDigitStart rest := by
  cases rest with
  | nil => trivial
  | cons c r => exact h.1

theorem numBreakStart_cons (c : Char) (rest : List Char)
    (h : isDigitChar c = false ∧ c ≠ '.' ∧ c ≠ 'e' ∧ c ≠ 'E') :
    numBreakStart (c :: rest) := h

theorem nonDigitStart_cons (c : Char) (rest : List Char)
    (h : isDigitChar c = false) : nonDigitStart (c :: rest) := h

theorem digitChars_digits (ds : List Nat) (h10 : ∀ d ∈ ds, d < 10) :
    ∀ c ∈ digitChars ds, isDigitChar c = true := by
  intro c hc
  unfold digitChars at hc
  rw [List.mem_map] at hc
  obtain ⟨d, hd, rfl⟩ := hc
  have h := h10 d hd
  simp only [isDigitChar, charToNat_ofNat (48 + d) (by omega)]
  simp only [Bool.and_eq_true, decide_eq_true_eq]
  omega

theorem digitChars_map_val (ds : List Nat) (h10 : ∀ d ∈ ds, d < 10) :
    (digitChars ds).map (fun c => c.toNat - 48) = ds := by
  unfold digitChars
  rw [List.map_map]
  have hcg : ∀ d ∈ ds,
      ((fun c => c.toNat - 48) ∘ fun x => Char.ofNat (48 + x)) d = id d := by
    intro d hd
    have h := h10 d hd
    show (Char.ofNat (48 + d)).toNat - 48 = d
    rw [charToNat_ofNat (48 + d) (by omega)]
    omega
  rw [List.map_congr_left hcg, List.map_id]

theorem readDigits_append (ds : List Nat) (rest : List Char)
    (h10 : ∀ d ∈ ds, d < 10) (hrest : nonDigitStart rest) :
    readDigits (digitChars ds ++ rest) = (ds, rest) := by
  unfold readDigits
  rw [takeDigits_append (digitChars ds) rest (digitChars_digits ds h10) hrest]
  rw [digitChars_map_val ds h10]

theorem digitsVal_map (cs : List Char) :
    digitsVal (cs.map (fun c => c.toNat - 48)) = digitsToNat cs := by
  unfold digitsVal digitsToNat
  rw [List.foldl_map]

theorem readDigits_natSer (m : Nat) (rest : List Char)
    (hrest : nonDigitStart rest) :
    ∃ e es, readDigits (natSer m ++ rest) = (e :: es, rest)
      ∧ digitsVal (e :: es) = m := by
  obtain ⟨d, ds, hser, hd⟩ := natSer_cons m
  refine ⟨d.toNat - 48, ds.map (fun c => c.toNat - 48), ?_, ?_⟩
  · unfold readDigits
    rw [takeDigits_append (natSer m) rest (natSer_digits m) hrest, hser]
    rfl
  · rw [show (d.toNat - 48) :: ds.map (fun c => c.toNat - 48) =
      (d :: ds).map (fun c => c.toNat - 48) from rfl, ← hser,
      digitsVal_map, digitsToNat_natSer]

theorem digitChars_append (a b : List Nat) :
    digitChars (a ++ b) = digitChars a ++ digitChars b := by
  unfold digitChars
  rw [List.map_append]

theorem digitChars_replicate_zero (j : Nat) :
    digitChars (List.replicate j 0) = List.replicate j '0' := by
  unfold digitChars
  rw [List.map_replicate]

theorem stripLeadZeros_cons_ne (d : Nat) (l : List Nat) (h : d ≠ 0) :
    stripLeadZeros (d :: l) = (0, d :: l) := by
  unfold stripLeadZeros
  rw [if_neg h]

theorem stripLeadZeros_replicate (j : Nat) (l : List Nat) :
    stripLeadZeros (List.replicate j 0 ++ l) =
      ((stripLeadZeros l).1 + j, (stripLeadZeros l).2) := by
  induction j with
  | zero => simp
  | succ j2 ih =>
    rw [List.replicate_succ, List.cons_append]
    have hstep : stripLeadZeros (0 :: (List.replicate j2 0 ++ l)) =
        ((stripLeadZeros (List.replicate j2 0 ++ l)).1 + 1,
         (stripLeadZeros (List.replicate j2 0 ++ l)).2) := rfl
    rw [hstep, ih]
    simp [Nat.add_assoc]

theorem stripTrailZeros_append_zeros (l : List Nat) (j : Nat) :
    stripTrailZeros (l ++ List.replicate j 0) = stripTrailZeros l := by
  unfold stripTrailZeros
  rw [List.reverse_append, List.reverse_replicate, stripLeadZeros_replicate]

theorem stripTrailZeros_concat_ne (l : List Nat) (d : Nat) (h : d ≠ 0) :
    stripTrailZeros (l ++ [d]) = l ++ [d] := by
  unfold stripTrailZeros
  rw [List.reverse_append]
  show (stripLeadZeros (d :: l.reverse)).2.reverse = _
  rw [stripLeadZeros_cons_ne d l.reverse h]
  simp

theorem stripTrailZeros_of_getLastD (ds : List Nat) (hne : ds ≠ [])
    (h : ds.getLastD 1 ≠ 0) : stripTrailZeros ds = ds := by
  rcases List.eq_nil_or_concat ds with rfl | ⟨l, d, rfl⟩
  · exact absurd rfl hne
  · rw [List.concat_eq_append] at h ⊢
    rw [List.getLastD_concat] at h
    exact stripTrailZeros_concat_ne l d h

theorem parseNumExp_break (ids fds : List Nat) (rest : List Char)
    (hrest : numBreakStart rest) :
    parseNumExp ids fds rest = some ((ids, fds, 0), rest) := by
  cases rest with
  | nil => rfl
  | cons c r =>
    obtain ⟨hd, hdot, he, hE⟩ := hrest
    simp only [parseNumExp]
    rw [if_neg (by simp [he, hE])]

theorem parseNumFrac_break (ids : List Nat) (rest : List Char)
    (hrest : numBreakStart rest) :
    parseNumFrac ids rest = some ((ids, [], 0), rest) := by
  cases rest with
  | nil => rfl
  | cons c r =>
    obtain ⟨hd, hdot, he, hE⟩ := hrest
    simp only [parseNumFrac]
    rw [if_neg hdot]
    exact parseNumExp_break ids [] (c :: r) ⟨hd, hdot, he, hE⟩

theorem parseNumExp_signclose (ids fds : List Nat) (n : Int) (rest : List Char)
    (hrest : nonDigitStart rest) (hD : n ≤ -6 ∨ 21 < n) :
    parseNumExp ids fds
      ('e' :: (if 0 ≤ n - 1 then '+' else '-') :: (natSer (n - 1).natAbs ++ rest))
      = some ((ids, fds, n - 1), rest) := by
  obtain ⟨e1, es, hrd, hval⟩ := readDigits_natSer (n - 1).natAbs rest hrest
  rcases hD with hD | hD
  · rw [if_neg (show ¬(0 ≤ n - 1) by omega)]
    simp only [parseNumExp, if_true]
    rw [hrd]
    show some ((ids, fds, -((digitsVal (e1 :: es) : Nat) : Int)), rest) = _
    rw [hval]
    have hcast : -(((n - 1).natAbs : Nat) : Int) = n - 1 := by omega
    rw [hcast]
  · rw [if_pos (show 0 ≤ n - 1 by omega)]
    simp only [parseNumExp, if_true]
    rw [hrd]
    show some ((ids, fds, ((digitsVal (e1 :: es) : Nat) : Int)), rest) = _
    rw [hval]
    have hcast : (((n - 1).natAbs : Nat) : Int) = n - 1 := by omega
    rw [hcast]

theorem hexVal_hexDigitChar (d : Nat) (h : d < 16) :
    hexVal (hexDigitChar d) = some d := by
  by_cases h10 : d < 10
  · simp only [hexDigitChar, if_pos h10, hexVal, charToNat_ofNat (48 + d) (by omega)]
    rw [if_pos (by omega)]
    congr 1
    omega
  · simp only [hexDigitChar, if_neg h10, hexVal, charToNat_ofNat (87 + d) (by omega)]
    rw [if_neg (by omega), if_pos (by omega)]
    congr 1
    omega

theorem parseStrBody_escChars (cs rest : List Char) :
    parseStrBody (escChars cs ++ '"' :: rest) = some (cs, rest) := by
  induction cs with
  | nil =>
    show parseStrBody ('"' :: rest) = _
    rw [parseStrBody.eq_def]
    simp
  | cons c cs2 ih =>
    show parseStrBody ((escapeChar c ++ escChars cs2) ++ '"' :: rest) = _
    rw [List.append_assoc]
    by_cases h1 : c = '"'
    · subst h1
      rw [show escapeChar '"' = ['\\', '"'] from rfl]
      simp only [List.cons_append, List.nil_append]
      rw [parseStrBody.eq_def]
      simp [ih]
    · by_cases h2 : c = '\\'
      · subst h2
        rw [show escapeChar '\\' = ['\\', '\\'] from rfl]
        simp only [List.cons_append, List.nil_append]
        rw [parseStrBody.eq_def]
        simp [ih]
      · by_cases h3 : c = Char.ofNat 8
        · subst h3
          rw [show escapeChar (Char.ofNat 8) = ['\\', 'b'] from rfl]
          simp only [List.cons_append, List.nil_append]
          rw [parseStrBody.eq_def]
          simp [ih]
        · by_cases h4 : c = Char.ofNat 9
          · subst h4
            rw [show escapeChar (Char.ofNat 9) = ['\\', 't'] from rfl]
            simp only [List.cons_append, List.nil_append]
            rw [parseStrBody.eq_def]
            simp [ih]
          · by_cases h5 : c = Char.ofNat 10
            · subst h5
              rw [show escapeChar (Char.ofNat 10) = ['\\', 'n'] from rfl]
              simp only [List.cons_append, List.nil_append]
              rw [parseStrBody.eq_def]
              simp [ih]
            · by_cases h6 : c = Char.ofNat 12
              · subst h6
                rw [show escapeChar (Char.ofNat 12) = ['\\', 'f'] from rfl]
                simp only [List.cons_append, List.nil_append]
                rw [parseStrBody.eq_def]
                simp [ih]
              · by_cases h7 : c = Char.ofNat 13
                · subst h7
                  rw [show escapeChar (Char.ofNat 13) = ['\\', 'r'] from rfl]
                  simp only [List.cons_append, List.nil_append]
                  rw [parseStrBody.eq_def]
                  simp [ih]
                · by_cases h8 : c.toNat < 32
                  · have e0 : hexVal '0' = some 0 := rfl
                    have e1 : hexVal (hexDigitChar (c.toNat / 16)) =
                        some (c.toNat / 16) := hexVal_hexDigitChar _ (by omega)
                    have e2 : hexVal (hexDigitChar (c.toNat % 16)) =
                        some (c.toNat % 16) := hexVal_hexDigitChar _ (by omega)
                    have hc : 4096 * 0 + 256 * 0 + 16 * (c.toNat / 16) +
                        c.toNat % 16 = c.toNat := by omega
                    simp only [escapeChar, if_neg h1, if_neg h2, if_neg h3,
                      if_neg h4, if_neg h5, if_neg h6, if_neg h7, if_pos h8,
                      List.cons_append, List.nil_append]
                    rw [parseStrBody.eq_def]
                    simp [e0, e1, e2, hc, Char.ofNat_toNat, ih]
                    have hc2 : 16 * (c.toNat / 16) + c.toNat % 16 = c.toNat := by
                      omega
                    rw [hc2, Char.ofNat_toNat]
                  · simp only [escapeChar, if_neg h1, if_neg h2, if_neg h3,
                      if_neg h4, if_neg h5, if_neg h6, if_neg h7, if_neg h8,
                      List.cons_append, List.nil_append]
                    rw [parseStrBody.eq_def]
                    simp [h1, h2, h8, ih]

theorem isDigitChar_ne (d : Char) (h : isDigitChar d = true) :
    d ≠ 'n' ∧ d ≠ 't' ∧ d ≠ 'f' ∧ d ≠ '"' ∧ d ≠ '[' ∧ d ≠ '{' ∧ d ≠ '-' := by
  refine ⟨?_, ?_, ?_, ?_, ?_, ?_, ?_⟩ <;>
    (intro heq; rw [heq] at h; exact absurd h (by decide))

theorem digitChar_isDigit (d : Nat) (h : d < 10) :
    isDigitChar (Char.ofNat (48 + d)) = true := by
  simp only [isDigitChar, charToNat_ofNat (48 + d) (by omega)]
  simp only [Bool.and_eq_true, decide_eq_true_eq]
  omega

theorem wfNum_cons (neg : Bool) (d : Nat) (ds2 : List Nat) (n : Int)
    (h : wfNum neg (d :: ds2) n = true) :
    d ≠ 0 ∧ (∀ x ∈ d :: ds2, x < 10) ∧ (d :: ds2).getLastD 1 ≠ 0 := by
  unfold wfNum at h
  simp only [Bool.and_eq_true, bne_iff_ne, ne_eq, List.all_eq_true,
    decide_eq_true_eq] at h
  exact ⟨h.1.1, h.1.2, h.2⟩

theorem numSerCore_cons (d : Nat) (ds2 : List Nat) (n : Int) (hd10 : d < 10) :
    ∃ c t, numSerCore (d :: ds2) n = c :: t ∧ isDigitChar c = true := by
  unfold numSerCore
  by_cases h1 : ((d :: ds2).length : Int) ≤ n ∧ n ≤ 21
  · rw [if_pos h1]
    exact ⟨Char.ofNat (48 + d),
      digitChars ds2 ++ List.replicate (n - ((d :: ds2).length : Int)).toNat '0',
      rfl, digitChar_isDigit d hd10⟩
  · rw [if_neg h1]
    by_cases h2 : 0 < n ∧ n ≤ 21
    · rw [if_pos h2]
      obtain ⟨t2, hnt⟩ : ∃ t2, n.toNat = t2 + 1 := ⟨n.toNat - 1, by omega⟩
      refine ⟨Char.ofNat (48 + d),
        digitChars (ds2.take t2) ++ '.' :: digitChars ((d :: ds2).drop n.toNat),
        ?_, digitChar_isDigit d hd10⟩
      rw [hnt, List.take_succ_cons]
      rfl
    · rw [if_neg h2]
      by_cases h3 : -6 < n ∧ n ≤ 0
      · rw [if_pos h3]
        exact ⟨'0',
          '.' :: (List.replicate (-n).toNat '0' ++ digitChars (d :: ds2)),
          rfl, by decide⟩
      · rw [if_neg h3]
        cases ds2 with
        | nil =>
          exact ⟨Char.ofNat (48 + d),
            'e' :: (if 0 ≤ n - 1 then '+' else '-') :: natSer (n - 1).natAbs,
            rfl, digitChar_isDigit d hd10⟩
        | cons e2 es2 =>
          exact ⟨Char.ofNat (48 + d),
            '.' :: digitChars (e2 :: es2) ++
              'e' :: (if 0 ≤ n - 1 then '+' else '-') :: natSer (n - 1).natAbs,
            rfl, digitChar_isDigit d hd10⟩

theorem numSer_ne_nil (neg : Bool) (ds : List Nat) (n : Int) :
    numSer neg ds n ≠ [] := by
  unfold numSer
  split
  · simp
  · rename_i hni
    have hds : ds ≠ [] := by
      intro h
      rw [h] at hni
      exact hni rfl
    intro hcon
    rw [List.append_eq_nil] at hcon
    have hcore : numSerCore ds n = [] := hcon.2
    obtain ⟨d, ds2, rfl⟩ : ∃ d ds2, ds = d :: ds2 := by
      cases ds with
      | nil => exact absurd rfl hds
      | cons d ds2 => exact ⟨d, ds2, rfl⟩
    revert hcore
    unfold numSerCore
    by_cases h1 : ((d :: ds2).length : Int) ≤ n ∧ n ≤ 21
    · rw [if_pos h1]
      intro hcon2
      rw [List.append_eq_nil] at hcon2
      exact absurd hcon2.1 (by simp [digitChars])
    · rw [if_neg h1]
      by_cases h2 : 0 < n ∧ n ≤ 21
      · rw [if_pos h2]
        intro hcon2
        rw [List.append_eq_nil] at hcon2
        exact absurd hcon2.2 (by simp)
      · rw [if_neg h2]
        by_cases h3 : -6 < n ∧ n ≤ 0
        · rw [if_pos h3]
          intro hcon2
          simp at hcon2
        · rw [if_neg h3]
          intro hcon2
          rw [List.append_eq_nil] at hcon2
          exact absurd hcon2.2 (by simp)

theorem numSer_false_cons (ds : List Nat) (n : Int)
    (hwf : wfNum false ds n = true) :
    ∃ c t, numSer false ds n = c :: t ∧ isDigitChar c = true := by
  cases ds with
  | nil => exact ⟨'0', [], rfl, by decide⟩
  | cons d ds2 =>
    obtain ⟨hd0, h10, hlast⟩ := wfNum_cons false d ds2 n hwf
    obtain ⟨c, t, hct, hcd⟩ := numSerCore_cons d ds2 n (h10 d (by simp))
    refine ⟨c, t, ?_, hcd⟩
    unfold numSer
    rw [if_neg (by simp)]
    show numSerCore (d :: ds2) n = c :: t
    exact hct

theorem parseNumBody_numSerCore (d : Nat) (ds2 : List Nat) (n : Int)
    (rest : List Char) (h10 : ∀ x ∈ d :: ds2, x < 10) (hd0 : d ≠ 0)
    (hlast : (d :: ds2).getLastD 1 ≠ 0) (hrest : numBreakStart rest) :
    ∃ ids fds E,
      parseNumBody (numSerCore (d :: ds2) n ++ rest)
        = some ((ids, fds, E), rest)
      ∧ ∀ b : Bool, normNum b ids fds E = (b, d :: ds2, n) := by
  have hndg := numBreakStart_nonDigit rest hrest
  have hstz : stripTrailZeros (d :: ds2) = d :: ds2 :=
    stripTrailZeros_of_getLastD (d :: ds2) (by simp) hlast
  by_cases hA : ((d :: ds2).length : Int) ≤ n ∧ n ≤ 21
  · refine ⟨(d :: ds2) ++ List.replicate (n - ((d :: ds2).length : Int)).toNat 0,
      [], 0, ?_, ?_⟩
    · have hshape : numSerCore (d :: ds2) n =
          digitChars ((d :: ds2) ++
            List.replicate (n - ((d :: ds2).length : Int)).toNat 0) := by
        unfold numSerCore
        rw [if_pos hA, digitChars_append, digitChars_replicate_zero]
      have h10x : ∀ x ∈ (d :: ds2) ++
          List.replicate (n - ((d :: ds2).length : Int)).toNat 0, x < 10 := by
        intro x hx
        rcases List.mem_append.mp hx with hx | hx
        · exact h10 x hx
        · rw [List.eq_of_mem_replicate hx]
          omega
      have hrd : readDigits (digitChars ((d :: ds2) ++
            List.replicate (n - ((d :: ds2).length : Int)).toNat 0) ++ rest)
          = (d :: (ds2 ++ List.replicate (n - ((d :: ds2).length : Int)).toNat 0),
              rest) :=
        readDigits_append _ rest h10x hndg
      unfold parseNumBody
      rw [hshape, hrd]
      show parseNumFrac
        (d :: (ds2 ++ List.replicate (n - ((d :: ds2).length : Int)).toNat 0))
        rest = _
      rw [parseNumFrac_break _ rest hrest]
      rfl
    · intro b
      unfold normNum
      rw [List.append_nil]
      have hsl : stripLeadZeros ((d :: ds2) ++
            List.replicate (n - ((d :: ds2).length : Int)).toNat 0)
          = (0, (d :: ds2) ++
              List.replicate (n - ((d :: ds2).length : Int)).toNat 0) :=
        stripLeadZeros_cons_ne d _ hd0
      rw [hsl]
      dsimp only
      rw [stripTrailZeros_append_zeros, hstz]
      rw [if_neg (by simp)]
      simp only [Prod.mk.injEq]
      refine ⟨trivial, trivial, ?_⟩
      rw [List.length_append, List.length_replicate]
      push_cast
      omega
  · by_cases hB : 0 < n ∧ n ≤ 21
    · have hnk : n < ((d :: ds2).length : Int) := by
        by_contra hcon
        push_neg at hcon
        exact hA ⟨hcon, hB.2⟩
      have hklen : (d :: ds2).length = ds2.length + 1 := List.length_cons d ds2
      obtain ⟨t2, hnt⟩ : ∃ t2, n.toNat = t2 + 1 := ⟨n.toNat - 1, by omega⟩
      have ht2lt : t2 < ds2.length := by omega
      have htake : (d :: ds2).take n.toNat = d :: ds2.take t2 := by
        rw [hnt, List.take_succ_cons]
      have hdrop : (d :: ds2).drop n.toNat = ds2.drop t2 := by
        rw [hnt, List.drop_succ_cons]
      obtain ⟨f, fs, hdfs⟩ : ∃ f fs, ds2.drop t2 = f :: fs := by
        cases hq : ds2.drop t2 with
        | nil =>
          have hlen := congrArg List.length hq
          rw [List.length_drop] at hlen
          simp at hlen
          omega
        | cons f fs => exact ⟨f, fs, rfl⟩
      have hshape : numSerCore (d :: ds2) n =
          digitChars (d :: ds2.take t2) ++ '.' :: digitChars (ds2.drop t2) := by
        unfold numSerCore
        rw [if_neg hA, if_pos hB, htake, hdrop]
      have h10t : ∀ x ∈ d :: ds2.take t2, x < 10 := by
        intro x hx
        rcases List.mem_cons.mp hx with rfl | hx
        · exact h10 x (by simp)
        · exact h10 x (List.mem_cons_of_mem d (List.take_subset t2 ds2 hx))
      have h10d : ∀ x ∈ ds2.drop t2, x < 10 := fun x hx =>
        h10 x (List.mem_cons_of_mem d (List.drop_subset t2 ds2 hx))
      have hrd1 : readDigits (digitChars (d :: ds2.take t2) ++
            ('.' :: (digitChars (ds2.drop t2) ++ rest)))
          = (d :: ds2.take t2, '.' :: (digitChars (ds2.drop t2) ++ rest)) :=
        readDigits_append _ _ h10t (nonDigitStart_cons '.' _ (by decide))
      have hrd2 : readDigits (digitChars (ds2.drop t2) ++ rest)
          = (ds2.drop t2, rest) :=
        readDigits_append _ rest h10d hndg
      refine ⟨d :: ds2.take t2, ds2.drop t2, 0, ?_, ?_⟩
      · unfold parseNumBody
        rw [hshape]
        rw [show (digitChars (d :: ds2.take t2) ++
              '.' :: digitChars (ds2.drop t2)) ++ rest
            = digitChars (d :: ds2.take t2) ++
              ('.' :: (digitChars (ds2.drop t2) ++ rest)) from by simp]
        rw [hrd1]
        show parseNumFrac (d :: ds2.take t2)
          ('.' :: (digitChars (ds2.drop t2) ++ rest)) = _
        simp only [parseNumFrac, if_true]
        rw [hrd2, hdfs]
        show parseNumExp (d :: ds2.take t2) (f :: fs) rest = _
        rw [parseNumExp_break _ _ rest hrest]
      · intro b
        unfold normNum
        rw [show (d :: ds2.take t2) ++ ds2.drop t2 = d :: ds2 from by
          rw [List.cons_append, List.take_append_drop]]
        rw [stripLeadZeros_cons_ne d ds2 hd0]
        dsimp only
        rw [hstz]
        rw [if_neg (by simp)]
        simp only [Prod.mk.injEq]
        refine ⟨trivial, trivial, ?_⟩
        rw [List.length_cons, List.length_take]
        push_cast
        omega
    · by_cases hC : -6 < n ∧ n ≤ 0
      · have hshape : numSerCore (d :: ds2) n =
            '0' :: '.' ::
              (List.replicate (-n).toNat '0' ++ digitChars (d :: ds2)) := by
          unfold numSerCore
          rw [if_neg hA, if_neg hB, if_pos hC]
        have hfr : List.replicate (-n).toNat '0' ++ digitChars (d :: ds2)
            = digitChars (List.replicate (-n).toNat 0 ++ (d :: ds2)) := by
          rw [digitChars_append, digitChars_replicate_zero]
        have h10z : ∀ x ∈ List.replicate (-n).toNat 0 ++ (d :: ds2), x < 10 := by
          intro x hx
          rcases List.mem_append.mp hx with hx | hx
          · rw [List.eq_of_mem_replicate hx]
            omega
          · exact h10 x hx
        have hrdz : readDigits
              (digitChars (List.replicate (-n).toNat 0 ++ (d :: ds2)) ++ rest)
            = (List.replicate (-n).toNat 0 ++ (d :: ds2), rest) :=
          readDigits_append _ rest h10z hndg
        obtain ⟨q, qs, hq⟩ : ∃ q qs,
            List.replicate (-n).toNat 0 ++ (d :: ds2) = q :: qs := by
          cases hj : (-n).toNat with
          | zero => exact ⟨d, ds2, rfl⟩
          | succ j2 =>
            exact ⟨0, List.replicate j2 0 ++ (d :: ds2), by
              rw [List.replicate_succ, List.cons_append]⟩
        have hrd0 : readDigits (('0' : Char) :: ('.' ::
              ((List.replicate (-n).toNat '0' ++ digitChars (d :: ds2)) ++ rest)))
            = ([0], '.' ::
                ((List.replicate (-n).toNat '0' ++ digitChars (d :: ds2)) ++ rest)) :=
          readDigits_append [0] _ (by intro x hx; simp at hx; omega)
            (nonDigitStart_cons '.' _ (by decide))
        refine ⟨[0], List.replicate (-n).toNat 0 ++ (d :: ds2), 0, ?_, ?_⟩
        · unfold parseNumBody
          rw [hshape]
          rw [show ('0' :: '.' ::
                (List.replicate (-n).toNat '0' ++ digitChars (d :: ds2))) ++ rest
              = '0' :: ('.' ::
                ((List.replicate (-n).toNat '0' ++ digitChars (d :: ds2)) ++ rest))
              from by simp]
          rw [hrd0]
          show parseNumFrac [0] ('.' ::
            ((List.replicate (-n).toNat '0' ++ digitChars (d :: ds2)) ++ rest)) = _
          simp only [parseNumFrac, if_true]
          rw [show (List.replicate (-n).toNat '0' ++ digitChars (d :: ds2)) ++ rest
              = digitChars (List.replicate (-n).toNat 0 ++ (d :: ds2)) ++ rest
              from by rw [hfr]]
          rw [hrdz, hq]
          show parseNumExp [0] (q :: qs) rest = _
          rw [parseNumExp_break _ _ rest hrest, ← hq]
        · intro b
          unfold normNum
          have hL : stripLeadZeros
                ([0] ++ (List.replicate (-n).toNat 0 ++ (d :: ds2)))
              = ((-n).toNat + 1, d :: ds2) := by
            rw [show ([0] : List Nat) ++
                  (List.replicate (-n).toNat 0 ++ (d :: ds2))
                = List.replicate ((-n).toNat + 1) 0 ++ (d :: ds2) from by
              simp [List.replicate_succ]]
            rw [stripLeadZeros_replicate, stripLeadZeros_cons_ne d ds2 hd0]
            simp [Nat.add_comm]
          rw [hL]
          dsimp only
          rw [hstz]
          rw [if_neg (by simp)]
          simp only [Prod.mk.injEq]
          refine ⟨trivial, trivial, ?_⟩
          simp only [List.length_singleton]
          push_cast
          omega
      · have hD : n ≤ -6 ∨ 21 < n := by omega
        cases ds2 with
        | nil =>
          have hshape : numSerCore [d] n =
              Char.ofNat (48 + d) :: 'e' ::
                (if 0 ≤ n - 1 then '+' else '-') :: natSer (n - 1).natAbs := by
            unfold numSerCore
            rw [if_neg hA, if_neg hB, if_neg hC]
            rfl
          have hrdd : readDigits (Char.ofNat (48 + d) :: ('e' ::
                (if 0 ≤ n - 1 then '+' else '-') ::
                  (natSer (n - 1).natAbs ++ rest)))
              = ([d], 'e' :: (if 0 ≤ n - 1 then '+' else '-') ::
                  (natSer (n - 1).natAbs ++ rest)) :=
            readDigits_append [d] _ h10 (nonDigitStart_cons 'e' _ (by decide))
          refine ⟨[d], [], n - 1, ?_, ?_⟩
          · unfold parseNumBody
            rw [hshape]
            rw [show (Char.ofNat (48 + d) :: 'e' ::
                  (if 0 ≤ n - 1 then '+' else '-') :: natSer (n - 1).natAbs) ++ rest
                = Char.ofNat (48 + d) :: ('e' ::
                  (if 0 ≤ n - 1 then '+' else '-') ::
                    (natSer (n - 1).natAbs ++ rest)) from by simp]
            rw [hrdd]
            show parseNumFrac [d] ('e' :: (if 0 ≤ n - 1 then '+' else '-') ::
              (natSer (n - 1).natAbs ++ rest)) = _
            simp only [parseNumFrac]
            rw [if_neg (show ('e' : Char) ≠ '.' by decide)]
            rw [parseNumExp_signclose [d] [] n rest hndg hD]
          · intro b
            unfold normNum
            rw [List.append_nil, stripLeadZeros_cons_ne d [] hd0]
            dsimp only
            rw [hstz]
            rw [if_neg (by simp)]
            simp only [Prod.mk.injEq]
            refine ⟨trivial, trivial, ?_⟩
            simp only [List.length_singleton]
            push_cast
            omega
        | cons e2 es2 =>
          have hshape : numSerCore (d :: e2 :: es2) n =
              Char.ofNat (48 + d) :: '.' :: (digitChars (e2 :: es2) ++
                'e' :: (if 0 ≤ n - 1 then '+' else '-') ::
                  natSer (n - 1).natAbs) := by
            unfold numSerCore
            rw [if_neg hA, if_neg hB, if_neg hC]
            rfl
          have h10tail : ∀ x ∈ e2 :: es2, x < 10 := fun x hx =>
            h10 x (List.mem_cons_of_mem d hx)
          have hrde : readDigits (digitChars (e2 :: es2) ++
                ('e' :: (if 0 ≤ n - 1 then '+' else '-') ::
                  (natSer (n - 1).natAbs ++ rest)))
              = (e2 :: es2, 'e' :: (if 0 ≤ n - 1 then '+' else '-') ::
                  (natSer (n - 1).natAbs ++ rest)) :=
            readDigits_append _ _ h10tail (nonDigitStart_cons 'e' _ (by decide))
          have hrdd : readDigits (Char.ofNat (48 + d) :: ('.' ::
                (digitChars (e2 :: es2) ++
                  ('e' :: (if 0 ≤ n - 1 then '+' else '-') ::
                    (natSer (n - 1).natAbs ++ rest)))))
              = ([d], '.' :: (digitChars (e2 :: es2) ++
                  ('e' :: (if 0 ≤ n - 1 then '+' else '-') ::
                    (natSer (n - 1).natAbs ++ rest)))) :=
            readDigits_append [d] _
              (by intro y hy; rw [List.mem_singleton] at hy; rw [hy];
                  exact h10 d (by simp))
              (nonDigitStart_cons '.' _ (by decide))
          refine ⟨[d], e2 :: es2, n - 1, ?_, ?_⟩
          · unfold parseNumBody
            rw [hshape]
            rw [show (Char.ofNat (48 + d) :: '.' :: (digitChars (e2 :: es2) ++
                  'e' :: (if 0 ≤ n - 1 then '+' else '-') ::
                    natSer (n - 1).natAbs)) ++ rest
                = Char.ofNat (48 + d) :: ('.' :: (digitChars (e2 :: es2) ++
                  ('e' :: (if 0 ≤ n - 1 then '+' else '-') ::
                    (natSer (n - 1).natAbs ++ rest)))) from by simp]
            rw [hrdd]
            show parseNumFrac [d] ('.' :: (digitChars (e2 :: es2) ++
              ('e' :: (if 0 ≤ n - 1 then '+' else '-') ::
                (natSer (n - 1).natAbs ++ rest)))) = _
            simp only [parseNumFrac, if_true]
            rw [hrde]
            show parseNumExp [d] (e2 :: es2)
              ('e' :: (if 0 ≤ n - 1 then '+' else '-') ::
                (natSer (n - 1).natAbs ++ rest)) = _
            rw [parseNumExp_signclose [d] (e2 :: es2) n rest hndg hD]
          · intro b
            unfold normNum
            rw [show ([d] : List Nat) ++ (e2 :: es2) = d :: e2 :: es2 from rfl]
            rw [stripLeadZeros_cons_ne d (e2 :: es2) hd0]
            dsimp only
            rw [hstz]
            rw [if_neg (by simp)]
            simp only [Prod.mk.injEq]
            refine ⟨trivial, trivial, ?_⟩
            simp only [List.length_singleton]
            push_cast
            omega

theorem parseNumber_numSer (neg : Bool) (ds : List Nat) (n : Int)
    (rest : List Char) (hwf : wfNum neg ds n = true)
    (hrest : numBreakStart rest) :
    parseNumber (numSer neg ds n ++ rest) = some ((neg, ds, n), rest) := by
  cases ds with
  | nil =>
    obtain ⟨hneg, hn0⟩ : neg = false ∧ n = 0 := by
      unfold wfNum at hwf
      simp only [Bool.and_eq_true, Bool.not_eq_true', beq_iff_eq] at hwf
      exact hwf
    subst hneg
    subst hn0
    have hrd : readDigits (('0' : Char) :: rest) = ([0], rest) :=
      readDigits_append [0] rest (by intro x hx; simp at hx; omega)
        (numBreakStart_nonDigit rest hrest)
    show parseNumber ('0' :: rest) = some ((false, [], 0), rest)
    rw [show parseNumber ('0' :: rest) = (parseNumBody ('0' :: rest)).map
        (fun p => (normNum false p.1.1 p.1.2.1 p.1.2.2, p.2)) from rfl]
    unfold parseNumBody
    rw [hrd]
    show ((parseNumFrac [0] rest).map
      (fun p => (normNum false p.1.1 p.1.2.1 p.1.2.2, p.2))) = _
    rw [parseNumFrac_break [0] rest hrest]
    rfl
  | cons d ds2 =>
    obtain ⟨hd0, h10, hlast⟩ := wfNum_cons neg d ds2 n hwf
    obtain ⟨ids, fds, E, hbody, hnorm⟩ :=
      parseNumBody_numSerCore d ds2 n rest h10 hd0 hlast hrest
    cases neg with
    | false =>
      have hser : numSer false (d :: ds2) n = numSerCore (d :: ds2) n := by
        unfold numSer
        rw [if_neg (by simp)]
        rfl
      obtain ⟨c, t, hct, hcd⟩ := numSerCore_cons d ds2 n (h10 d (by simp))
      have hcne : c ≠ '-' := (isDigitChar_ne c hcd).2.2.2.2.2.2
      rw [hser, hct, List.cons_append]
      simp only [parseNumber]
      rw [if_neg hcne]
      rw [show c :: (t ++ rest) = numSerCore (d :: ds2) n ++ rest from by
        rw [hct, List.cons_append]]
      rw [hbody]
      show some (normNum false ids fds E, rest) = _
      rw [hnorm false]
    | true =>
      have hser : numSer true (d :: ds2) n = '-' :: numSerCore (d :: ds2) n := by
        unfold numSer
        rw [if_neg (by simp)]
        rfl
      rw [hser, List.cons_append]
      rw [show parseNumber ('-' :: (numSerCore (d :: ds2) n ++ rest))
          = (parseNumBody (numSerCore (d :: ds2) n ++ rest)).map
              (fun p => (normNum true p.1.1 p.1.2.1 p.1.2.2, p.2)) from rfl]
      rw [hbody]
      show some (normNum true ids fds E, rest) = _
      rw [hnorm true]

/-- The characters that can start a serialised JSON value. -/
def startOk (d : Char) : Bool :=
  d == 'n' || d == 't' || d == 'f' || d == '"' || d == '[' || d == '{' ||
    d == '-' || isDigitChar d

theorem jser_start (v : JsonVal) (hv : JsonVal.wf v = true) :
    ∃ d ds, jser v = d :: ds ∧ startOk d = true := by
  cases v with
  | jnull => exact ⟨'n', ['u', 'l', 'l'], by simp [jser], by decide⟩
  | jbool b =>
    cases b with
    | true => exact ⟨'t', ['r', 'u', 'e'], by simp [jser], by decide⟩
    | false => exact ⟨'f', ['a', 'l', 's', 'e'], by simp [jser], by decide⟩
  | jnum neg ds n =>
    have hwfn : wfNum neg ds n = true := hv
    cases neg with
    | true =>
      cases ds with
      | nil => exact absurd hwfn (by simp [wfNum])
      | cons e es =>
        refine ⟨'-', numSerCore (e :: es) n, ?_, by decide⟩
        rw [show jser (JsonVal.jnum true (e :: es) n) = numSer true (e :: es) n
          from by simp [jser]]
        unfold numSer
        rw [if_neg (by simp)]
        rfl
    | false =>
      obtain ⟨c, t, hser, hd⟩ := numSer_false_cons ds n hwfn
      refine ⟨c, t, by simp [jser, hser], ?_⟩
      simp [startOk, hd]
  | jstr s => exact ⟨'"', escChars s.data ++ ['"'], by simp [jser], by decide⟩
  | jarr elems =>
    cases elems with
    | nil => exact ⟨'[', [']'], by simp [jser], by decide⟩
    | cons x xs => exact ⟨'[', jserElemsTail x xs, by simp [jser], by decide⟩
  | jobj members =>
    cases members with
    | nil => exact ⟨'{', ['}'], by simp [jser], by decide⟩
    | cons k v ms => exact ⟨'{', jserMembersTail k v ms, by simp [jser], by decide⟩

theorem startOk_ne (d : Char) (h : startOk d = true) : d ≠ ']' ∧ d ≠ '}' := by
  constructor
  · intro heq
    rw [heq] at h
    exact absurd h (by decide)
  · intro heq
    rw [heq] at h
    exact absurd h (by decide)

mutual
/-- Fuel sufficient for `parseVal` on `jser v`. -/
def needVal : JsonVal → Nat
  | .jnull => 1
  | .jbool _ => 1
  | .jnum _ _ _ => 1
  | .jstr _ => 1
  | .jarr .nil => 1
  | .jarr (.cons x xs) => 1 + needElems x xs
  | .jobj .nil => 1
  | .jobj (.cons k v ms) => 1 + needMembers k v ms
termination_by v => sizeOf v
decreasing_by all_goals (simp_wf <;> omega)

/-- Fuel sufficient for `parseElems` on `jserElemsTail x xs`. -/
def needElems : JsonVal → JsonList → Nat
  | x, .nil => 1 + needVal x
  | x, .cons y ys => 1 + max (needVal x) (needElems y ys)
termination_by x xs => sizeOf x + sizeOf xs
decreasing_by all_goals (simp_wf <;> omega)

/-- Fuel sufficient for `parseMembers` on `jserMembersTail k v ms`. -/
def needMembers : String → JsonVal → JsonMembers → Nat
  | _, v, .nil => 1 + needVal v
  | _, v, .cons k2 v2 ms2 => 1 + max (needVal v) (needMembers k2 v2 ms2)
termination_by k v ms => sizeOf v + sizeOf ms
decreasing_by all_goals (simp_wf <;> omega)
end

theorem needVal_pos (v : JsonVal) : 1 ≤ needVal v := by
  cases v with
  | jnull => simp [needVal]
  | jbool b => simp [needVal]
  | jnum neg ds n => simp [needVal]
  | jstr s => simp [needVal]
  | jarr elems => cases elems <;> simp [needVal]
  | jobj members => cases members <;> simp [needVal]

theorem needElems_pos (x : JsonVal) (xs : JsonList) : 1 ≤ needElems x xs := by
  cases xs <;> simp [needElems]

theorem needMembers_pos (k : String) (v : JsonVal) (ms : JsonMembers) :
    1 ≤ needMembers k v ms := by
  cases ms <;> simp [needMembers]

mutual
theorem needVal_le_len : (v : JsonVal) → needVal v ≤ (jser v).length
  | .jnull => by simp [needVal, jser]
  | .jbool b => by cases b <;> simp [needVal, jser]
  | .jnum neg ds n => by
    have h : 1 ≤ (numSer neg ds n).length := by
      cases hn : numSer neg ds n with
      | nil => exact absurd hn (numSer_ne_nil neg ds n)
      | cons d t => simp
    simp only [needVal, jser]
    omega
  | .jstr s => by simp [needVal, jser]
  | .jarr .nil => by simp [needVal, jser]
  | .jarr (.cons x xs) => by
    have h := needElems_le_len x xs
    simp only [needVal, jser, List.length_cons]
    omega
  | .jobj .nil => by simp [needVal, jser]
  | .jobj (.cons k v ms) => by
    have h := needMembers_le_len k v ms
    simp only [needVal, jser, List.length_cons]
    omega
termination_by v => sizeOf v
decreasing_by all_goals (simp_wf <;> omega)

theorem needElems_le_len : (x : JsonVal) → (xs : JsonList) →
    needElems x xs ≤ (jserElemsTail x xs).length
  | x, .nil => by
    have h := needVal_le_len x
    simp only [needElems, jserElemsTail, List.length_append, List.length_cons,
      List.length_nil]
    omega
  | x, .cons y ys => by
    have h1 := needVal_le_len x
    have h2 := needElems_le_len y ys
    simp only [needElems, jserElemsTail, List.length_append, List.length_cons]
    omega
termination_by x xs => sizeOf x + sizeOf xs
decreasing_by all_goals (simp_wf <;> omega)

theorem needMembers_le_len : (k : String) → (v : JsonVal) → (ms : JsonMembers) →
    needMembers k v ms ≤ (jserMembersTail k v ms).length
  | k, v, .nil => by
    have h := needVal_le_len v
    simp only [needMembers, jserMembersTail, List.length_append,
      List.length_cons, List.length_nil]
    omega
  | k, v, .cons k2 v2 ms2 => by
    have h1 := needVal_le_len v
    have h2 := needMembers_le_len k2 v2 ms2
    simp only [needMembers, jserMembersTail, List.length_append,
      List.length_cons]
    omega
termination_by k v ms => sizeOf v + sizeOf ms
decreasing_by all_goals (simp_wf <;> omega)
end

theorem parseRT (fuel : Nat) :
    (∀ (v : JsonVal) (rest : List Char), JsonVal.wf v = true →
      needVal v ≤ fuel → numBreakStart rest →
      parseVal fuel (jser v ++ rest) = some (v, rest))
    ∧ (∀ (x : JsonVal) (xs : JsonList) (rest : List Char),
        JsonVal.wf x = true → JsonList.wf xs = true →
        needElems x xs ≤ fuel → numBreakStart rest →
        parseElems fuel (jserElemsTail x xs ++ rest) =
          some (JsonList.cons x xs, rest))
    ∧ (∀ (k : String) (v : JsonVal) (ms : JsonMembers) (rest : List Char),
        JsonVal.wf v = true → JsonMembers.wf ms = true →
        needMembers k v ms ≤ fuel → numBreakStart rest →
        parseMembers fuel (jserMembersTail k v ms ++ rest) =
          some (JsonMembers.cons k v ms, rest)) := by
  induction fuel with
  | zero =>
    refine ⟨?_, ?_, ?_⟩
    · intro v rest hwf hneed hrest
      exact absurd hneed (by have := needVal_pos v; omega)
    · intro x xs rest hwx hwxs hneed hrest
      exact absurd hneed (by have := needElems_pos x xs; omega)
    · intro k v ms rest hwv hwms hneed hrest
      exact absurd hneed (by have := needMembers_pos k v ms; omega)
  | succ fuel ih =>
    obtain ⟨ihV, ihE, ihM⟩ := ih
    refine ⟨?_, ?_, ?_⟩
    · intro v rest hwf hneed hrest
      cases v with
      | jnull =>
        rw [show jser JsonVal.jnull = ['n', 'u', 'l', 'l'] by simp [jser]]
        rfl
      | jbool b =>
        cases b with
        | true =>
          rw [show jser (JsonVal.jbool true) = ['t', 'r', 'u', 'e'] by simp [jser]]
          rfl
        | false =>
          rw [show jser (JsonVal.jbool false) = ['f', 'a', 'l', 's', 'e'] by
            simp [jser]]
          rfl
      | jnum neg ds n =>
        have hwfn : wfNum neg ds n = true := hwf
        have hPN := parseNumber_numSer neg ds n rest hwfn hrest
        cases neg with
        | true =>
          cases ds with
          | nil => exact absurd hwfn (by simp [wfNum])
          | cons e es =>
            have hser2 : numSer true (e :: es) n =
                '-' :: numSerCore (e :: es) n := by
              unfold numSer
              rw [if_neg (by simp)]
              rfl
            have hser : jser (JsonVal.jnum true (e :: es) n)
                = numSer true (e :: es) n := by simp [jser]
            rw [hser, hser2, List.cons_append]
            simp only [parseVal, if_true]
            rw [show '-' :: (numSerCore (e :: es) n ++ rest)
                = numSer true (e :: es) n ++ rest from by
              rw [hser2, List.cons_append]]
            rw [hPN]
            rfl
        | false =>
          obtain ⟨c, t, hser0, hd⟩ := numSer_false_cons ds n hwfn
          obtain ⟨hn1, hn2, hn3, hn4, hn5, hn6, hn7⟩ := isDigitChar_ne c hd
          have hser : jser (JsonVal.jnum false ds n) = c :: t := by
            rw [show jser (JsonVal.jnum false ds n) = numSer false ds n from by
              simp [jser], hser0]
          rw [hser, List.cons_append]
          simp only [parseVal]
          rw [if_neg hn1, if_neg hn2, if_neg hn3, if_neg hn4, if_neg hn5,
            if_neg hn6, if_neg hn7, if_pos hd]
          rw [show c :: (t ++ rest) = numSer false ds n ++ rest from by
            rw [hser0, List.cons_append]]
          rw [hPN]
          rfl
      | jstr s =>
        rw [show jser (JsonVal.jstr s) = '"' :: (escChars s.data ++ ['"']) by
          simp [jser]]
        have hp := parseStrBody_escChars s.data rest
        simp [parseVal, hp]
      | jarr elems =>
        cases elems with
        | nil =>
          rw [show jser (JsonVal.jarr JsonList.nil) = ['[', ']'] by simp [jser]]
          rfl
        | cons x xs =>
          have hwfl : JsonVal.wf x = true ∧ JsonList.wf xs = true := by
            have h : (JsonVal.wf x && JsonList.wf xs) = true := hwf
            simpa [Bool.and_eq_true] using h
          rw [show jser (JsonVal.jarr (JsonList.cons x xs)) =
            '[' :: jserElemsTail x xs by simp [jser]]
          have hneed2 : needElems x xs ≤ fuel := by
            have hne : needVal (JsonVal.jarr (JsonList.cons x xs)) =
              1 + needElems x xs := by simp [needVal]
            omega
          have hE := ihE x xs rest hwfl.1 hwfl.2 hneed2 hrest
          obtain ⟨d, ds, hsx, hok⟩ := jser_start x hwfl.1
          have hd_ne := (startOk_ne d hok).1
          have ht : ∃ t, jserElemsTail x xs = jser x ++ t := by
            cases xs with
            | nil => exact ⟨[']'], by simp [jserElemsTail]⟩
            | cons y ys => exact ⟨',' :: jserElemsTail y ys, by simp [jserElemsTail]⟩
          obtain ⟨t, ht⟩ := ht
          have hshape : jserElemsTail x xs ++ rest = d :: (ds ++ (t ++ rest)) := by
            rw [ht, hsx]; simp
          rw [List.cons_append, hshape]
          simp only [parseVal, if_true]
          rw [if_neg hd_ne, ← hshape, hE]
          rfl
      | jobj members =>
        cases members with
        | nil =>
          rw [show jser (JsonVal.jobj JsonMembers.nil) = ['{', '}'] by simp [jser]]
          rfl
        | cons k v ms =>
          have hwfm : JsonVal.wf v = true ∧ JsonMembers.wf ms = true := by
            have h : (JsonVal.wf v && JsonMembers.wf ms) = true := hwf
            simpa [Bool.and_eq_true] using h
          rw [show jser (JsonVal.jobj (JsonMembers.cons k v ms)) =
            '{' :: jserMembersTail k v ms by simp [jser]]
          have hneed2 : needMembers k v ms ≤ fuel := by
            have hne : needVal (JsonVal.jobj (JsonMembers.cons k v ms)) =
              1 + needMembers k v ms := by simp [needVal]
            omega
          have hM := ihM k v ms rest hwfm.1 hwfm.2 hneed2 hrest
          have hshape : ∃ tl, jserMembersTail k v ms ++ rest = '"' :: tl := by
            cases ms with
            | nil =>
              exact ⟨escChars k.data ++ ('"' :: (':' :: (jser v ++ '}' :: rest))),
                by simp [jserMembersTail]⟩
            | cons k2 v2 ms2 =>
              exact ⟨escChars k.data ++ ('"' :: (':' :: (jser v ++
                ',' :: (jserMembersTail k2 v2 ms2 ++ rest)))),
                by simp [jserMembersTail]⟩
          obtain ⟨tl, hshape⟩ := hshape
          rw [List.cons_append, hshape]
          simp only [parseVal, if_true]
          rw [← hshape, hM]
          rfl
    · intro x xs rest hwx hwxs hneed hrest
      cases xs with
      | nil =>
        rw [show jserElemsTail x JsonList.nil = jser x ++ [']'] by
          simp [jserElemsTail]]
        have hneed2 : needVal x ≤ fuel := by
          have hne : needElems x JsonList.nil = 1 + needVal x := by simp [needElems]
          omega
        have hV := ihV x (']' :: rest) hwx hneed2
          (numBreakStart_cons ']' rest (by decide))
        have harr : (jser x ++ [']']) ++ rest = jser x ++ (']' :: rest) := by simp
        rw [harr]
        simp only [parseElems]
        rw [hV]
        rfl
      | cons y ys =>
        have hwyl : JsonVal.wf y = true ∧ JsonList.wf ys = true := by
          have h : (JsonVal.wf y && JsonList.wf ys) = true := hwxs
          simpa [Bool.and_eq_true] using h
        rw [show jserElemsTail x (JsonList.cons y ys) =
          jser x ++ ',' :: jserElemsTail y ys by simp [jserElemsTail]]
        have hne : needElems x (JsonList.cons y ys) =
            1 + max (needVal x) (needElems y ys) := by simp [needElems]
        have hneedx : needVal x ≤ fuel := by omega
        have hneedy : needElems y ys ≤ fuel := by omega
        have hV := ihV x (',' :: (jserElemsTail y ys ++ rest)) hwx hneedx
          (numBreakStart_cons ',' _ (by decide))
        have hE := ihE y ys rest hwyl.1 hwyl.2 hneedy hrest
        have harr : (jser x ++ ',' :: jserElemsTail y ys) ++ rest =
            jser x ++ (',' :: (jserElemsTail y ys ++ rest)) := by simp
        rw [harr]
        simp only [parseElems]
        rw [hV]
        show (if (',' : Char) = ',' then
            match parseElems fuel (jserElemsTail y ys ++ rest) with
            | none => none
            | some (vs, rest3) => some (JsonList.cons x vs, rest3)
          else if (',' : Char) = ']' then
            some (JsonList.cons x JsonList.nil, jserElemsTail y ys ++ rest)
          else none) = some (JsonList.cons x (JsonList.cons y ys), rest)
        rw [hE]
        rfl
    · intro k v ms rest hwv hwms hneed hrest
      cases ms with
      | nil =>
        rw [show jserMembersTail k v JsonMembers.nil =
          ('"' :: (escChars k.data ++ ['"'])) ++ ':' :: (jser v ++ ['}']) by
          simp [jserMembersTail]]
        have hne : needMembers k v JsonMembers.nil = 1 + needVal v := by
          simp [needMembers]
        have hneed2 : needVal v ≤ fuel := by omega
        have hV := ihV v ('}' :: rest) hwv hneed2
          (numBreakStart_cons '}' rest (by decide))
        have hsb := parseStrBody_escChars k.data (':' :: (jser v ++ '}' :: rest))
        have harr : (('"' :: (escChars k.data ++ ['"'])) ++
            ':' :: (jser v ++ ['}'])) ++ rest =
            '"' :: (escChars k.data ++ '"' :: (':' :: (jser v ++ '}' :: rest))) := by
          simp
        rw [harr]
        simp only [parseMembers, if_true]
        rw [hsb]
        simp only [if_true]
        rw [hV]
        rfl
      | cons k2 v2 ms2 =>
        have hw2 : JsonVal.wf v2 = true ∧ JsonMembers.wf ms2 = true := by
          have h : (JsonVal.wf v2 && JsonMembers.wf ms2) = true := hwms
          simpa [Bool.and_eq_true] using h
        rw [show jserMembersTail k v (JsonMembers.cons k2 v2 ms2) =
          ('"' :: (escChars k.data ++ ['"'])) ++
            ':' :: (jser v ++ ',' :: jserMembersTail k2 v2 ms2) by
          simp [jserMembersTail]]
        have hne : needMembers k v (JsonMembers.cons k2 v2 ms2) =
            1 + max (needVal v) (needMembers k2 v2 ms2) := by simp [needMembers]
        have hneedv : needVal v ≤ fuel := by omega
        have hneedm : needMembers k2 v2 ms2 ≤ fuel := by omega
        have hV := ihV v (',' :: (jserMembersTail k2 v2 ms2 ++ rest)) hwv hneedv
          (numBreakStart_cons ',' _ (by decide))
        have hM := ihM k2 v2 ms2 rest hw2.1 hw2.2 hneedm hrest
        have hsb := parseStrBody_escChars k.data
          (':' :: (jser v ++ ',' :: (jserMembersTail k2 v2 ms2 ++ rest)))
        have harr : (('"' :: (escChars k.data ++ ['"'])) ++
            ':' :: (jser v ++ ',' :: jserMembersTail k2 v2 ms2)) ++ rest =
            '"' :: (escChars k.data ++
              '"' :: (':' :: (jser v ++
                ',' :: (jserMembersTail k2 v2 ms2 ++ rest)))) := by
          simp
        rw [harr]
        simp only [parseMembers, if_true]
        rw [hsb]
        simp only [if_true]
        rw [hV]
        simp only [if_true]
        rw [hM]

theorem char_toNat_lt (c : Char) : c.toNat < 1114112 := by
  rcases c.valid with h | h
  · exact Nat.lt_trans h (by norm_num)
  · exact h.2

theorem utf8DecodeAux_encodeChar (c : Char) (fuel : Nat) (bs : List Nat) :
    utf8DecodeAux (fuel + 1) (utf8EncodeChar c ++ bs) =
      (utf8DecodeAux fuel bs).map (c :: ·) := by
  by_cases h1 : c.toNat < 128
  · rw [show utf8EncodeChar c = [c.toNat] by
      unfold utf8EncodeChar; rw [if_pos h1]]
    show utf8DecodeAux (fuel + 1) (c.toNat :: bs) = _
    simp only [utf8DecodeAux]
    rw [if_pos h1, Char.ofNat_toNat]
  · by_cases h2 : c.toNat < 2048
    · rw [show utf8EncodeChar c = [192 + c.toNat / 64, 128 + c.toNat % 64] by
        unfold utf8EncodeChar; rw [if_neg h1, if_pos h2]]
      show utf8DecodeAux (fuel + 1)
        ((192 + c.toNat / 64) :: (128 + c.toNat % 64) :: bs) = _
      simp only [utf8DecodeAux]
      rw [if_neg (by omega), if_neg (by omega), if_pos (by omega),
        if_pos (by omega)]
      have hv : (192 + c.toNat / 64 - 192) * 64 + (128 + c.toNat % 64 - 128) =
          c.toNat := by omega
      rw [hv, Char.ofNat_toNat]
    · by_cases h3 : c.toNat < 65536
      · rw [show utf8EncodeChar c = [224 + c.toNat / 4096,
          128 + c.toNat / 64 % 64, 128 + c.toNat % 64] by
          unfold utf8EncodeChar; rw [if_neg h1, if_neg h2, if_pos h3]]
        show utf8DecodeAux (fuel + 1) ((224 + c.toNat / 4096) ::
          (128 + c.toNat / 64 % 64) :: (128 + c.toNat % 64) :: bs) = _
        simp only [utf8DecodeAux]
        rw [if_neg (by omega), if_neg (by omega), if_neg (by omega),
          if_pos (by omega), if_pos (by omega)]
        have hv : (224 + c.toNat / 4096 - 224) * 4096 +
            (128 + c.toNat / 64 % 64 - 128) * 64 +
            (128 + c.toNat % 64 - 128) = c.toNat := by omega
        rw [hv, Char.ofNat_toNat]
      · have hcv := char_toNat_lt c
        rw [show utf8EncodeChar c = [240 + c.toNat / 262144,
          128 + c.toNat / 4096 % 64, 128 + c.toNat / 64 % 64,
          128 + c.toNat % 64] by
          unfold utf8EncodeChar; rw [if_neg h1, if_neg h2, if_neg h3]]
        show utf8DecodeAux (fuel + 1) ((240 + c.toNat / 262144) ::
          (128 + c.toNat / 4096 % 64) :: (128 + c.toNat / 64 % 64) ::
          (128 + c.toNat % 64) :: bs) = _
        simp only [utf8DecodeAux]
        rw [if_neg (by omega), if_neg (by omega), if_neg (by omega),
          if_neg (by omega), if_pos (by omega)]
        have hv : (240 + c.toNat / 262144 - 240) * 262144 +
            (128 + c.toNat / 4096 % 64 - 128) * 4096 +
            (128 + c.toNat / 64 % 64 - 128) * 64 +
            (128 + c.toNat % 64 - 128) = c.toNat := by omega
        rw [hv, Char.ofNat_toNat]

theorem utf8DecodeAux_utf8Encode (cs : List Char) :
    ∀ fuel : Nat, cs.length ≤ fuel →
      utf8DecodeAux fuel (utf8Encode cs) = some cs := by
  induction cs with
  | nil =>
    intro fuel hf
    show utf8DecodeAux fuel [] = some []
    cases fuel <;> rfl
  | cons c cs2 ih =>
    intro fuel hf
    cases fuel with
    | zero => simp at hf
    | succ f =>
      show utf8DecodeAux (f + 1) (utf8EncodeChar c ++ utf8Encode cs2) = _
      rw [utf8DecodeAux_encodeChar, ih f (by simpa using hf)]
      rfl

theorem utf8EncodeChar_length_pos (c : Char) : 1 ≤ (utf8EncodeChar c).length := by
  unfold utf8EncodeChar
  split
  · simp
  · split
    · simp
    · split
      · simp
      · simp

theorem utf8Encode_length (cs : List Char) :
    cs.length ≤ (utf8Encode cs).length := by
  induction cs with
  | nil => simp [utf8Encode]
  | cons c cs2 ih =>
    show cs2.length + 1 ≤ (utf8EncodeChar c ++ utf8Encode cs2).length
    have := utf8EncodeChar_length_pos c
    simp only [List.length_append]
    omega

theorem utf8DecodeChars_utf8Encode (cs : List Char) :
    utf8DecodeChars (utf8Encode cs) = some cs :=
  utf8DecodeAux_utf8Encode cs (utf8Encode cs).length (utf8Encode_length cs)

/-- C8: jsonb codec.  `jsonb_send(v)` is the single version byte `0x01`
followed by the UTF-8 bytes of the JSON text of `v`; `jsonb_recv` raises
whenever the first byte of its input is not `1` (the version-tag assertion);
and for every JSON-representable value, `jsonb_recv (jsonb_send v) = v`. -/
theorem natSer_two : natSer 2 = ['2'] := by
  rw [natSer, if_pos (by norm_num)]

theorem natSer_21 : natSer 21 = ['2', '1'] := by
  rw [natSer, if_neg (by norm_num)]
  norm_num
  rw [natSer_two]
  rfl

/-- C8: jsonb codec.  `jsonb_send(v)` is the single version byte `0x01`
followed by the UTF-8 bytes of the JSON text of `v`; `jsonb_recv` raises
whenever the first byte of its input is not `1` (the version-tag assertion);
for every JSON-representable value — null, booleans, finite numbers
(represented by their canonical decimal expansions, `JsonVal.wf`), strings
and arrays/objects thereof — `jsonb_recv (jsonb_send v) = v`; and the number
texts follow ECMAScript formatting, e.g. the double `1.5` prints as `1.5`
and `1e21` prints in exponential notation as `1e+21`. -/
theorem jsonb_codec_spec (v : JsonVal) (bytes : List Nat)
    (hv : JsonVal.wf v = true) (hb : bytes.head? ≠ some 1) :
    jsonb_send v = 1 :: utf8Encode (jsonStringify v).data
    ∧ (∃ e, jsonb_recv bytes = Except.error e)
    ∧ jsonb_recv (jsonb_send v) = Except.ok v
    ∧ jsonStringify (JsonVal.jnum false [1, 5] 1) = "1.5"
    ∧ jsonStringify (JsonVal.jnum false [1] 22) = "1e+21" := by
  refine ⟨rfl, ?_, ?_, ?_, ?_⟩
  · cases bytes with
    | nil => exact ⟨"Assertion failed.", rfl⟩
    | cons b rest =>
      have hbne : b ≠ 1 := by
        intro h
        exact hb (by rw [h]; rfl)
      exact ⟨"Assertion failed.", by simp [jsonb_recv, hbne]⟩
  · show jsonb_recv (1 :: json_send v) = _
    show json_recv (json_send v) = Except.ok v
    unfold json_recv json_send
    rw [show (jsonStringify v).data = jser v from rfl,
      utf8DecodeChars_utf8Encode]
    show jsonParse (String.mk (jser v)) = Except.ok v
    unfold jsonParse
    rw [show (String.mk (jser v)).data = jser v from rfl,
      show (String.mk (jser v)).length = (jser v).length from rfl]
    have hfuel : needVal v ≤ (jser v).length + 1 := by
      have := needVal_le_len v
      omega
    have hrt := (parseRT ((jser v).length + 1)).1 v [] hv hfuel trivial
    rw [List.append_nil] at hrt
    rw [hrt]
  · unfold jsonStringify
    rw [show jser (JsonVal.jnum false [1, 5] 1) = numSer false [1, 5] 1 from by
      simp [jser]]
    rfl
  · unfold jsonStringify
    rw [show jser (JsonVal.jnum false [1] 22) = numSer false [1] 22 from by
      simp [jser]]
    unfold numSer numSerCore
    rw [if_neg (by decide), if_neg (by decide), if_neg (by decide),
      if_neg (by decide), if_neg (by decide), if_pos (by decide)]
    rw [show ((22 : Int) - 1).natAbs = 21 from by norm_num, natSer_21]
    rfl

/-- The jsonb witness value
`{"foo":"bar","half":1.5,"big":1e+21,"tiny":-2.5e-8,"zero":0}`: the test
suite's object extended with finite non-integer, exponential-notation,
negative and zero numbers. -/
def jsonWitnessValue : JsonVal :=
  JsonVal.jobj (JsonMembers.cons "foo" (JsonVal.jstr "bar")
    (JsonMembers.cons "half" (JsonVal.jnum false [1, 5] 1)
      (JsonMembers.cons "big" (JsonVal.jnum false [1] 22)
        (JsonMembers.cons "tiny" (JsonVal.jnum true [2, 5] (-7))
          (JsonMembers.cons "zero" (JsonVal.jnum false [] 0)
            JsonMembers.nil)))))

/-- Witness for `jsonb_codec_spec` at the value above and the byte list
`[2]` (wrong version byte). -/
theorem jsonb_codec_spec_witness :
    jsonb_send jsonWitnessValue =
      1 :: utf8Encode (jsonStringify jsonWitnessValue).data
    ∧ (∃ e, jsonb_recv [2] = Except.error e)
    ∧ jsonb_recv (jsonb_send jsonWitnessValue) = Except.ok jsonWitnessValue
    ∧ jsonStringify (JsonVal.jnum false [1, 5] 1) = "1.5"
    ∧ jsonStringify (JsonVal.jnum false [1] 22) = "1e+21" :=
  jsonb_codec_spec jsonWitnessValue [2] (by decide) (by decide)
